import Mathlib

/-!
# racon: the batched-alignment dispatcher `CUDABatchAligner`

A shallow embedding of `src/cuda/cudaaligner.cpp` / `cudaaligner.hpp`.

* The accelerator (`claragenomics::cudaaligner::Aligner`) is an external library.
  It is taken as a parameter: a state type `A` with the five member functions
  the dispatcher calls (`AlignerOps`).
* `Overlap` objects are owned by the caller and reached through `Overlap*`.
  They live in a heap `Ptr → Overlap`; the member functions `Overlap::Align`
  and `Overlap::FindBreakPoints` are parameters (`OverlapOps`).
* Every member call the dispatcher makes on an overlap is also appended to a
  call log, in program order, so that "how often" and "with which arguments"
  can be stated.
* A `const char*` is modelled by the bytes readable from it: the rest of the
  `std::string` buffer including its terminating zero byte. Forming a pointer
  outside a buffer, or copying past its end, has no defined behaviour in the
  C++; such a call of `addOverlap` has the outcome `undefined`.
* The CUDA stream, the device id, the batch id and the CUDA error checks of the
  constructor play no part in the queue logic and are left out, as is the
  diagnostic printed on `stderr`.
-/

namespace Racon

/-- Contents of a `std::string` / the memory behind a `const char*`. -/
abbrev Bytes := List Char

/-- An `Overlap*`. -/
abbrev Ptr := Nat

/-- The status codes of `claragenomics::cudaaligner::StatusType`. -/
inductive StatusType where
  | success
  | uninitialized
  | exceeded_max_alignments
  | exceeded_max_length
  | exceeded_max_alignment_difference
  | generic_error
  deriving DecidableEq, Repr

/-- A `biosoup::Sequence`; only its `data` member is read. -/
structure Sequence where
  data : Bytes
  deriving DecidableEq, Repr

/-- Modelled from the spec: the `Overlap` record (section 3 of the spec; `overlap.hpp`
is not among the sources). Only the members `cudaaligner.cpp` touches are named;
`breaking_points` stands for the window-local position pairs. -/
structure Overlap where
  q_id : Nat
  q_begin : Nat
  q_end : Nat
  t_id : Nat
  t_begin : Nat
  t_end : Nat
  cigar : String
  breaking_points : List (Nat × Nat)
  deriving DecidableEq, Repr

/-- The member functions of the accelerator the dispatcher calls, over an
accelerator state `A` with native alignment objects `Al`. -/
structure AlignerOps (A : Type) (Al : Type) where
  /-- The factory `create_aligner(max_query, max_target, max_alignments, ...)`. -/
  create_aligner : Nat → Nat → Nat → A
  /-- The call `add_alignment(query, query_length, target, target_length)`. -/
  add_alignment : A → Bytes → Int → Bytes → Int → StatusType × A
  align_all : A → A
  sync_alignments : A → A
  get_alignments : A → List Al
  reset : A → A
  /-- The member `Alignment::convert_to_cigar()`. -/
  convert_to_cigar : Al → String

/-- The two member functions of `Overlap` the dispatcher calls. -/
structure OverlapOps where
  /-- The call `overlap->Align(q, q_length, t, t_length)`. -/
  Align : Overlap → Bytes → Nat → Bytes → Nat → Overlap
  /-- The call `overlap->FindBreakPoints(window_length)`. -/
  FindBreakPoints : Overlap → Nat → Overlap

/-- One member access the dispatcher performs on an overlap. -/
inductive OverlapCall where
  /-- The assignment `overlap->cigar = c`. -/
  | setCigar (p : Ptr) (c : String)
  | FindBreakPoints (p : Ptr) (window_length : Nat)
  | Align (p : Ptr) (q : Bytes) (q_length : Nat) (t : Bytes) (t_length : Nat)
  deriving DecidableEq, Repr

/-- The data members of `CUDABatchAligner` (cudaaligner.hpp, lines 82-87). -/
structure CUDABatchAligner (A : Type) where
  aligner_ : A
  overlaps_ : List Ptr
  cpu_overlaps_ : List Ptr
  cpu_overlap_data_ : List (Bytes × Bytes)

/-- The dispatcher together with the caller-owned overlap objects it points
into and the log of member calls made on them. -/
structure Machine (A : Type) where
  batch : CUDABatchAligner A
  heap : Ptr → Overlap
  calls : List OverlapCall

/-- Effect of one member access on the overlap heap. -/
def applyCall (oops : OverlapOps) (h : Ptr → Overlap) : OverlapCall → (Ptr → Overlap)
  | .setCigar p c => Function.update h p { h p with cigar := c }
  | .FindBreakPoints p wl => Function.update h p (oops.FindBreakPoints (h p) wl)
  | .Align p q ql t tl => Function.update h p (oops.Align (h p) q ql t tl)

/-- Perform one member access: update the overlap and log the call. -/
def Machine.perform {A : Type} (oops : OverlapOps) (m : Machine A) (c : OverlapCall) :
    Machine A :=
  { m with heap := applyCall oops m.heap c, calls := m.calls ++ [c] }

/-- Conversion to `int32_t` (two's complement). -/
def wrapInt32 (x : Int) : Int := (x + 2147483648) % 4294967296 - 2147483648

/-- Line 57: `int32_t q_len = overlap->q_end - overlap->q_begin;`. -/
def q_len (o : Overlap) : Int := wrapInt32 ((o.q_end : Int) - (o.q_begin : Int))

/-- Line 59: `int32_t t_len = overlap->t_end - overlap->t_begin;`. -/
def t_len (o : Overlap) : Int := wrapInt32 ((o.t_end : Int) - (o.t_begin : Int))

/-- The terminating zero byte of a `std::string` buffer. -/
def NUL : Char := Char.ofNat 0

/-- The bytes readable from `&(store[id]->data[begin])` (lines 56, 58): the rest of the
string followed by its terminating zero byte. `store[id]` needs `id < store.size()` and
`data[begin]` needs `begin ≤ data.size()`; otherwise the expression has no defined
behaviour and there is no result. -/
def dataAt (store : List Sequence) (id : Nat) (start : Nat) : Option Bytes :=
  match store[id]? with
  | some s => if start ≤ s.data.length then some ((s.data ++ [NUL]).drop start) else none
  | none => none

/-- How the constructor call `std::string(p, p + len)` ends. -/
inductive RangeCopy where
  /-- The new string holds exactly `len` bytes. -/
  | bytes (b : Bytes)
  /-- A negative length: the constructor throws `std::length_error`. -/
  | length_error
  /-- The range ends past the readable bytes: no defined behaviour. -/
  | out_of_bounds
  deriving DecidableEq, Repr

/-- The constructor call `std::string(p, p + len)` (lines 72-73), where `p` stands for the
bytes readable from the pointer. -/
def stringOfRange (p : Bytes) (len : Int) : RangeCopy :=
  if len < 0 then .length_error
  else if len.toNat ≤ p.length then .bytes (p.take len.toNat)
  else .out_of_bounds

/-- Lines 56 and 58 of `addOverlap`: the two pointers `q` and `t`, when both are defined. -/
def resolve {A : Type} (m : Machine A) (overlap : Ptr)
    (targets sequences : List Sequence) : Option (Bytes × Bytes) :=
  match dataAt sequences (m.heap overlap).q_id (m.heap overlap).q_begin,
      dataAt targets (m.heap overlap).t_id (m.heap overlap).t_begin with
  | some q, some t => some (q, t)
  | _, _ => none

/-- Lines 56-64 of `addOverlap`: resolve the two byte ranges and submit them to
the accelerator; the result is its answer and its new state. The target is passed
first: "what is treated as target in edlib is query in cudaaligner and vice versa".
There is no result when the call does not get as far as the admission check. -/
def submit {A Al : Type} (aops : AlignerOps A Al) (m : Machine A) (overlap : Ptr)
    (targets sequences : List Sequence) : Option (StatusType × A) :=
  match resolve m overlap targets sequences with
  | some (q, t) =>
    some (aops.add_alignment m.batch.aligner_ t (t_len (m.heap overlap)) q
      (q_len (m.heap overlap)))
  | none => none

/-- The answer of the admission check, when the call gets as far as that. -/
def admission {A Al : Type} (aops : AlignerOps A Al) (m : Machine A) (overlap : Ptr)
    (targets sequences : List Sequence) : Option StatusType :=
  (submit aops m overlap targets sequences).map Prod.fst

/-- The constructor `CUDABatchAligner::CUDABatchAligner` (lines 26-45): empty queues and
an accelerator created with the three bounds, in the order given. -/
def CUDABatchAligner.construct {A Al : Type} (aops : AlignerOps A Al)
    (max_query_size max_target_size max_alignments : Nat) : CUDABatchAligner A :=
  { aligner_ := aops.create_aligner max_query_size max_target_size max_alignments
    overlaps_ := []
    cpu_overlaps_ := []
    cpu_overlap_data_ := [] }

/-- A freshly constructed dispatcher next to the caller's overlaps. -/
def Machine.construct {A Al : Type} (aops : AlignerOps A Al)
    (max_query_size max_target_size max_alignments : Nat) (heap : Ptr → Overlap) :
    Machine A :=
  { batch := CUDABatchAligner.construct aops max_query_size max_target_size max_alignments
    heap := heap
    calls := [] }

/-- How a call of `addOverlap` ends. -/
inductive AddOutcome (A : Type) where
  | returned (accepted : Bool) (m : Machine A)
  | threw (what : String) (m : Machine A)
  /-- The call has no defined behaviour. -/
  | undefined

/-- The machine a call of `addOverlap` leaves behind; `m` when there is none. -/
def AddOutcome.machineOr {A : Type} (m : Machine A) : AddOutcome A → Machine A
  | .returned _ m' => m'
  | .threw _ m' => m'
  | .undefined => m

/-- The member `CUDABatchAligner::addOverlap` (lines 52-85). -/
def addOverlap {A Al : Type} (aops : AlignerOps A Al) (m : Machine A) (overlap : Ptr)
    (targets sequences : List Sequence) : AddOutcome A :=
  match resolve m overlap targets sequences with
  | none => .undefined
  | some (q, t) =>
    let o := m.heap overlap
    let r := aops.add_alignment m.batch.aligner_ t (t_len o) q (q_len o)
    let s := r.1
    let m1 : Machine A := { m with batch := { m.batch with aligner_ := r.2 } }
    if s = StatusType.exceeded_max_alignments then
      .returned false m1
    else if s = StatusType.exceeded_max_alignment_difference
        ∨ s = StatusType.exceeded_max_length then
      -- the two strings are built in either order before the `emplace_back`
      match stringOfRange q (q_len o), stringOfRange t (t_len o) with
      | .bytes qs, .bytes ts =>
        .returned true { m1 with batch := { m1.batch with
          cpu_overlap_data_ := m1.batch.cpu_overlap_data_ ++ [(qs, ts)]
          cpu_overlaps_ := m1.batch.cpu_overlaps_ ++ [overlap] } }
      | .out_of_bounds, _ => .undefined
      | _, .out_of_bounds => .undefined
      | _, _ => .threw "std::length_error" m1
    else if s ≠ StatusType.success then
      -- fprintf(stderr, "Unknown error in cuda aligner!\n");
      .returned true m1
    else
      .returned true
        { m1 with batch := { m1.batch with overlaps_ := m1.batch.overlaps_ ++ [overlap] } }

/-- The member `CUDABatchAligner::hasOverlaps` (cudaaligner.hpp, lines 44-46). -/
def hasOverlaps {A : Type} (m : Machine A) : Bool :=
  decide (m.batch.overlaps_.length > 0)

/-- Body of the loop of `compute_cpu_overlaps` (lines 96-102) at index `a`, where
`overlap` is `cpu_overlaps_[a]`. -/
def compute_cpu_overlaps_step {A : Type} (oops : OverlapOps) (m : Machine A)
    (a : Nat) (overlap : Ptr) : Machine A :=
  let d := m.batch.cpu_overlap_data_.getD a ([], [])
  m.perform oops (.Align overlap d.1 d.1.length d.2 d.2.length)

/-- The member `CUDABatchAligner::compute_cpu_overlaps` (lines 93-104): the index `a` runs
over `cpu_overlaps_`. -/
def compute_cpu_overlaps {A : Type} (oops : OverlapOps) (m : Machine A) : Machine A :=
  m.batch.cpu_overlaps_.enum.foldl
    (fun m ap => compute_cpu_overlaps_step oops m ap.1 ap.2) m

/-- The member `CUDABatchAligner::alignAll` (lines 87-91). -/
def alignAll {A Al : Type} (aops : AlignerOps A Al) (oops : OverlapOps) (m : Machine A) :
    Machine A :=
  compute_cpu_overlaps oops
    { m with batch := { m.batch with aligner_ := aops.align_all m.batch.aligner_ } }

/-- How a call that may throw ends. -/
inductive Outcome (A : Type) where
  | returned (m : Machine A)
  | threw (what : String) (m : Machine A)

/-- The machine a call leaves behind, however it ended. -/
def Outcome.machine {A : Type} : Outcome A → Machine A
  | .returned m => m
  | .threw _ m => m

/-- Whether the call ended by throwing. -/
def Outcome.failed {A : Type} : Outcome A → Bool
  | .returned _ => false
  | .threw _ _ => true

/-- Body of the first loop of `find_breaking_points` (lines 118-119) at index `a`,
where `al` is `alignments[a]`. -/
def find_breaking_points_step {A Al : Type} (aops : AlignerOps A Al) (oops : OverlapOps)
    (window_length : Nat) (m : Machine A) (a : Nat) (al : Al) : Machine A :=
  let overlap := m.batch.overlaps_.getD a 0
  (m.perform oops (.setCigar overlap (aops.convert_to_cigar al))).perform oops
    (.FindBreakPoints overlap window_length)

/-- The member `CUDABatchAligner::find_breaking_points` (lines 106-126). -/
def find_breaking_points {A Al : Type} (aops : AlignerOps A Al) (oops : OverlapOps)
    (m : Machine A) (window_length : Nat) : Outcome A :=
  let m1 : Machine A :=
    { m with batch := { m.batch with aligner_ := aops.sync_alignments m.batch.aligner_ } }
  let alignments := aops.get_alignments m1.batch.aligner_
  if m1.batch.overlaps_.length ≠ alignments.length then
    .threw "Number of alignments doesn't match number of overlaps in cudaaligner." m1
  else
    let m2 := alignments.enum.foldl
      (fun m aal => find_breaking_points_step aops oops window_length m aal.1 aal.2) m1
    let m3 := m2.batch.cpu_overlaps_.foldl
      (fun m overlap => m.perform oops (.FindBreakPoints overlap window_length)) m2
    .returned m3

/-- The member `CUDABatchAligner::reset` (lines 128-134). -/
def reset {A Al : Type} (aops : AlignerOps A Al) (m : Machine A) : Machine A :=
  { m with batch :=
    { aligner_ := aops.reset m.batch.aligner_
      overlaps_ := []
      cpu_overlaps_ := []
      cpu_overlap_data_ := [] } }

/-! ## Ways of speaking about runs and inputs -/

/-- Perform a list of member accesses, first to last. -/
def Machine.performAll {A : Type} (oops : OverlapOps) (m : Machine A)
    (cs : List OverlapCall) : Machine A :=
  cs.foldl (Machine.perform oops) m

/-- The overlap a member access acts on. -/
def OverlapCall.target : OverlapCall → Ptr
  | .setCigar p _ => p
  | .FindBreakPoints p _ => p
  | .Align p _ _ _ _ => p

/-- The member accesses of a call log that act on the overlap `p`, in order. -/
def callsOn (p : Ptr) (cs : List OverlapCall) : List OverlapCall :=
  cs.filter fun c => decide (c.target = p)

/-- What one member access makes of the overlap it acts on. -/
def applyOn (oops : OverlapOps) (o : Overlap) : OverlapCall → Overlap
  | .setCigar _ c => { o with cigar := c }
  | .FindBreakPoints _ wl => oops.FindBreakPoints o wl
  | .Align _ q ql t tl => oops.Align o q ql t tl

/-- The calls the first loop of `find_breaking_points` makes for one accelerator
overlap and its alignment. -/
def acceleratorCalls {Al : Type} (convert_to_cigar : Al → String) (window_length : Nat)
    (p : Ptr) (al : Al) : List OverlapCall :=
  [.setCigar p (convert_to_cigar al), .FindBreakPoints p window_length]

/-- The calls `find_breaking_points` is to make, in order: for every accelerator overlap,
paired with its alignment by position, the cigar assignment followed by breakpoint
finding; then breakpoint finding for every fallback overlap. -/
def breakingPointCalls {Al : Type} (convert_to_cigar : Al → String) (window_length : Nat)
    (overlaps_ : List Ptr) (alignments : List Al) (cpu_overlaps_ : List Ptr) :
    List OverlapCall :=
  (List.zipWith (acceleratorCalls convert_to_cigar window_length) overlaps_
      alignments).flatten
    ++ cpu_overlaps_.map fun p => .FindBreakPoints p window_length

/-- The call `compute_cpu_overlaps` makes for one fallback overlap and its owned copies. -/
def fallbackCall (p : Ptr) (d : Bytes × Bytes) : OverlapCall :=
  .Align p d.1 d.1.length d.2 d.2.length

/-- The bytes at positions `b ≤ i < e` of `data`. -/
def byteRange (data : Bytes) (b e : Nat) : Bytes := (data.drop b).take (e - b)

/-- Both ranges of the overlap are ordered, lie within `sequences[q_id]` and
`targets[t_id]`, and have lengths that fit `int32_t`. -/
def ValidRanges (o : Overlap) (targets sequences : List Sequence) : Prop :=
  o.q_id < sequences.length ∧ o.q_begin ≤ o.q_end ∧
  o.q_end ≤ (sequences.getD o.q_id ⟨[]⟩).data.length ∧
  o.q_end - o.q_begin < 2147483648 ∧
  o.t_id < targets.length ∧ o.t_begin ≤ o.t_end ∧
  o.t_end ≤ (targets.getD o.t_id ⟨[]⟩).data.length ∧
  o.t_end - o.t_begin < 2147483648

instance (o : Overlap) (targets sequences : List Sequence) :
    Decidable (ValidRanges o targets sequences) := by
  unfold ValidRanges
  infer_instance

/-- The two statuses that send a request to the fallback path. -/
def isFallback (s : StatusType) : Bool :=
  decide (s = .exceeded_max_alignment_difference ∨ s = .exceeded_max_length)

/-- What a caller handed to `addOverlap` when an overlap went to the fallback
path: the pointer, the overlap as it was then, and the two stores. -/
structure Admission where
  ptr : Ptr
  overlap : Overlap
  targets : List Sequence
  sequences : List Sequence

/-- The query bytes `[q_begin, q_end)` of `sequences[q_id]` at admission. -/
def Admission.queryBytes (x : Admission) : Bytes :=
  byteRange (x.sequences.getD x.overlap.q_id ⟨[]⟩).data x.overlap.q_begin x.overlap.q_end

/-- The target bytes `[t_begin, t_end)` of `targets[t_id]` at admission. -/
def Admission.targetBytes (x : Admission) : Bytes :=
  byteRange (x.targets.getD x.overlap.t_id ⟨[]⟩).data x.overlap.t_begin x.overlap.t_end

/-- The pair of owned copies `addOverlap` makes at lines 72-73 for this admission: `q_len`
bytes from `q` and `t_len` bytes from `t`. -/
def Admission.copied (x : Admission) : Bytes × Bytes :=
  ((((x.sequences.getD x.overlap.q_id ⟨[]⟩).data ++ [NUL]).drop x.overlap.q_begin).take
      (q_len x.overlap).toNat,
   (((x.targets.getD x.overlap.t_id ⟨[]⟩).data ++ [NUL]).drop x.overlap.t_begin).take
      (t_len x.overlap).toNat)

/-- The fallback admission, if any, that a returning call of `addOverlap` amounts to. -/
def admitted {A Al : Type} (aops : AlignerOps A Al) (m : Machine A) (overlap : Ptr)
    (targets sequences : List Sequence) : List Admission :=
  match admission aops m overlap targets sequences with
  | some s => if isFallback s then [⟨overlap, m.heap overlap, targets, sequences⟩] else []
  | none => []

/-- The machine `m` is reached from construction by calls of `addOverlap`, `alignAll`,
`find_breaking_points` and `reset` (a call that throws leaves the object usable), with
the caller free to change its overlaps in between; `g` lists the fallback admissions
since the last `reset` (or since construction), oldest first. -/
inductive Reaches {A Al : Type} (aops : AlignerOps A Al) (oops : OverlapOps) :
    Machine A → List Admission → Prop where
  | byConstruct (max_query_size max_target_size max_alignments : Nat)
      (heap : Ptr → Overlap) :
      Reaches aops oops
        (Machine.construct aops max_query_size max_target_size max_alignments heap) []
  | byAddOverlap {m m' : Machine A} {g : List Admission} (overlap : Ptr)
      (targets sequences : List Sequence) (accepted : Bool) :
      Reaches aops oops m g →
      addOverlap aops m overlap targets sequences = .returned accepted m' →
      Reaches aops oops m' (g ++ admitted aops m overlap targets sequences)
  | byAddOverlapThrow {m m' : Machine A} {g : List Admission} (overlap : Ptr)
      (targets sequences : List Sequence) (what : String) :
      Reaches aops oops m g →
      addOverlap aops m overlap targets sequences = .threw what m' →
      Reaches aops oops m' g
  | byAlignAll {m : Machine A} {g : List Admission} :
      Reaches aops oops m g → Reaches aops oops (alignAll aops oops m) g
  | byFindBreakingPoints {m : Machine A} {g : List Admission} (window_length : Nat) :
      Reaches aops oops m g →
      Reaches aops oops (find_breaking_points aops oops m window_length).machine g
  | byReset {m : Machine A} {g : List Admission} :
      Reaches aops oops m g → Reaches aops oops (reset aops m) []
  /-- Between two calls the caller, who owns the overlaps, may change them. -/
  | byCaller {m : Machine A} {g : List Admission} (heap : Ptr → Overlap) :
      Reaches aops oops m g → Reaches aops oops { m with heap := heap } g

/-- Reachability without the admission record. -/
def Reachable {A Al : Type} (aops : AlignerOps A Al) (oops : OverlapOps)
    (m : Machine A) : Prop :=
  ∃ g, Reaches aops oops m g

/-- Modelled from the spec: the admission part of the accelerator aligner service
contract (section 6), `admit(query, query_len, target, target_len)`, for an
accelerator in state `a` created with the three bounds. The implementation
(`claragenomics::cudaaligner`) is an external library. The accelerator holds
one alignment per accepted request; at capacity it answers
`exceeded_max_alignments`, otherwise the first length is checked against
`max_query_size` and the second against `max_target_size`. -/
def AdmissionContract {A Al : Type} (aops : AlignerOps A Al)
    (max_query_size max_target_size max_alignments : Nat) (a : A) : Prop :=
  ∀ (q : Bytes) (ql : Int) (t : Bytes) (tl : Int),
    (max_alignments ≤ (aops.get_alignments a).length →
      (aops.add_alignment a q ql t tl).1 = .exceeded_max_alignments) ∧
    ((aops.get_alignments a).length < max_alignments →
      ((max_query_size : Int) < ql ∨ (max_target_size : Int) < tl) →
      (aops.add_alignment a q ql t tl).1 = .exceeded_max_length) ∧
    ((aops.get_alignments a).length < max_alignments →
      ql ≤ (max_query_size : Int) → tl ≤ (max_target_size : Int) →
      (aops.add_alignment a q ql t tl).1 = .success)

/-- Modelled from the spec: the results part of the accelerator aligner service
contract (section 6): a fresh accelerator holds no result, every request answered
`success` adds one result at the end, any other answer adds none, running and
synchronising the batch keep their number, and `reset` discards them all. -/
structure ResultContract {A Al : Type} (aops : AlignerOps A Al) : Prop where
  created : ∀ mq mt ma, aops.get_alignments (aops.create_aligner mq mt ma) = []
  accepted : ∀ a q ql t tl, (aops.add_alignment a q ql t tl).1 = .success →
    ∃ al, aops.get_alignments (aops.add_alignment a q ql t tl).2
      = aops.get_alignments a ++ [al]
  rejected : ∀ a q ql t tl, (aops.add_alignment a q ql t tl).1 ≠ .success →
    aops.get_alignments (aops.add_alignment a q ql t tl).2 = aops.get_alignments a
  ran : ∀ a, (aops.get_alignments (aops.align_all a)).length
    = (aops.get_alignments a).length
  synced : ∀ a, (aops.get_alignments (aops.sync_alignments a)).length
    = (aops.get_alignments a).length
  cleared : ∀ a, aops.get_alignments (aops.reset a) = []

/-! ## Concrete accelerators and inputs used in the examples -/

/-- State of the model accelerator: its three bounds and the requests it holds. -/
structure ModelAligner where
  max_query_length : Nat
  max_target_length : Nat
  max_alignments : Nat
  alignments : List (Bytes × Bytes)
  deriving DecidableEq, Repr

/-- Modelled from the spec: an accelerator following the aligner service contract
of section 6 (the real one is the external library `claragenomics::cudaaligner`).
It checks capacity first, then the first length against `max_query_length` and the
second against `max_target_length`, and otherwise accepts and holds the request.
Its cigar is one `M` per position of the shorter operand. -/
def modelAligner : AlignerOps ModelAligner (Bytes × Bytes) where
  create_aligner := fun mq mt ma => ⟨mq, mt, ma, []⟩
  add_alignment := fun a q ql t tl =>
    if a.max_alignments ≤ a.alignments.length then
      (.exceeded_max_alignments, a)
    else if (a.max_query_length : Int) < ql ∨ (a.max_target_length : Int) < tl then
      (.exceeded_max_length, a)
    else
      (.success, { a with alignments := a.alignments ++ [(q.take ql.toNat, t.take tl.toNat)] })
  align_all := fun a => a
  sync_alignments := fun a => a
  get_alignments := fun a => a.alignments
  reset := fun a => { a with alignments := [] }
  convert_to_cigar := fun al => String.mk (List.replicate (min al.1.length al.2.length) 'M')

/-- An accelerator stub that answers every request with the status `s` and holds
nothing. -/
def stubAligner (s : StatusType) : AlignerOps Unit Unit where
  create_aligner := fun _ _ _ => ()
  add_alignment := fun _ _ _ _ _ => (s, ())
  align_all := fun _ => ()
  sync_alignments := fun _ => ()
  get_alignments := fun _ => []
  reset := fun _ => ()
  convert_to_cigar := fun _ => ""

/-- State of the scripted accelerator: the answers still to give and the requests held. -/
structure ScriptedAligner where
  script : List StatusType
  alignments : List (Bytes × Bytes)
  deriving DecidableEq, Repr

/-- An accelerator stub that answers its requests from a fixed script, one answer per
request (`exceeded_max_alignments` once the script is used up), and holds one result for
every request it answered `success`. -/
def scriptedAligner (script : List StatusType) : AlignerOps ScriptedAligner (Bytes × Bytes) where
  create_aligner := fun _ _ _ => ⟨script, []⟩
  add_alignment := fun a q ql t tl =>
    match a.script with
    | [] => (.exceeded_max_alignments, a)
    | s :: rest =>
      (s, { script := rest
            alignments :=
              if s = .success then a.alignments ++ [(q.take ql.toNat, t.take tl.toNat)]
              else a.alignments })
  align_all := fun a => a
  sync_alignments := fun a => a
  get_alignments := fun a => a.alignments
  reset := fun a => { a with alignments := [] }
  convert_to_cigar := fun al => String.mk (List.replicate (min al.1.length al.2.length) 'M')

/-- Modelled from the spec: an instance of the two `Overlap` member functions
(`overlap.cpp` is not among the sources), used in the examples only. `Align` produces
an edit script from the two ranges (one `M` per query byte), `FindBreakPoints` consumes
the edit script and records one position pair. -/
def exampleOverlapOps : OverlapOps where
  Align := fun o _ ql _ _ => { o with cigar := String.mk (List.replicate ql 'M') }
  FindBreakPoints := fun o wl =>
    { o with breaking_points := o.breaking_points ++ [(o.t_begin, o.t_begin + wl)], cigar := "" }

/-- A store holding one sequence of eight bytes. -/
def exampleStore : List Sequence := [⟨['A', 'C', 'G', 'T', 'A', 'C', 'G', 'T']⟩]

/-- Overlaps for the examples, with target range `[0, 3)` of target 0: pointer 2 denotes an
overlap with query range `[0, 8)` of sequence 0, pointer 3 one whose query range runs
backwards (`q_begin = 5`, `q_end = 3`), pointer 4 one with query range `[0, 9)`, one byte
past the eight bytes of the sequence, pointer 5 one with query range `[0, 10)`, pointer 6
one on the sequence 1 that the store does not have, and every other pointer one with query
range `[0, 7)` of sequence 0. -/
def exampleHeap : Ptr → Overlap :=
  fun p =>
    if p = 2 then ⟨0, 0, 8, 0, 0, 3, "", []⟩
    else if p = 3 then ⟨0, 5, 3, 0, 0, 3, "", []⟩
    else if p = 4 then ⟨0, 0, 9, 0, 0, 3, "", []⟩
    else if p = 5 then ⟨0, 0, 10, 0, 0, 3, "", []⟩
    else if p = 6 then ⟨1, 0, 7, 0, 0, 3, "", []⟩
    else ⟨0, 0, 7, 0, 0, 3, "", []⟩

/-- A fresh dispatcher with bounds `(10, 7, 4)` over the model accelerator. -/
def exampleMachine0 : Machine ModelAligner :=
  Machine.construct modelAligner 10 7 4 exampleHeap

/-- The example dispatcher after `addOverlap` on pointer 0. -/
def exampleMachine1 : Machine ModelAligner :=
  (addOverlap modelAligner exampleMachine0 0 exampleStore exampleStore).machineOr
    exampleMachine0

/-- The example dispatcher after `addOverlap` on pointers 0 and 2. -/
def exampleMachine2 : Machine ModelAligner :=
  (addOverlap modelAligner exampleMachine1 2 exampleStore exampleStore).machineOr
    exampleMachine1

/-- The example dispatcher after `addOverlap` on the pointers 0, 2 and 1: overlaps 0 and 1
are queued for the accelerator, overlap 2 for the fallback. -/
def exampleMachine : Machine ModelAligner :=
  (addOverlap modelAligner exampleMachine2 1 exampleStore exampleStore).machineOr
    exampleMachine2

/-- The example dispatcher after `alignAll`. -/
def exampleAligned : Machine ModelAligner :=
  alignAll modelAligner exampleOverlapOps exampleMachine

/-- The answers of the accelerator in the second example: it accepts the first request and
answers `exceeded_max_alignment_difference` to the second. -/
def sharedScript : List StatusType :=
  [.success, .exceeded_max_alignment_difference]

/-- A fresh dispatcher over the scripted accelerator. -/
def exampleShared0 : Machine ScriptedAligner :=
  Machine.construct (scriptedAligner sharedScript) 10 10 4 exampleHeap

/-- The second example after a first `addOverlap` on pointer 0. -/
def exampleShared1 : Machine ScriptedAligner :=
  (addOverlap (scriptedAligner sharedScript) exampleShared0 0 exampleStore
    exampleStore).machineOr exampleShared0

/-- The second example after `addOverlap` on pointer 0 twice: the same overlap is queued
for the accelerator and for the fallback. -/
def exampleShared : Machine ScriptedAligner :=
  (addOverlap (scriptedAligner sharedScript) exampleShared1 0 exampleStore
    exampleStore).machineOr exampleShared1

/-- The second example after `alignAll`. -/
def exampleSharedAligned : Machine ScriptedAligner :=
  alignAll (scriptedAligner sharedScript) exampleOverlapOps exampleShared

/-! ## Auxiliary facts -/

section Auxiliary

variable {A Al : Type}

theorem wrapInt32_of_fits (x : Int) (h0 : 0 ≤ x) (h1 : x < 2147483648) : wrapInt32 x = x := by
  unfold wrapInt32
  omega

theorem q_len_of_valid (o : Overlap) (T S : List Sequence) (h : ValidRanges o T S) :
    q_len o = ((o.q_end - o.q_begin : Nat) : Int) := by
  obtain ⟨_, h1, _, h2, _, _, _, _⟩ := h
  unfold q_len
  rw [wrapInt32_of_fits] <;> omega

theorem t_len_of_valid (o : Overlap) (T S : List Sequence) (h : ValidRanges o T S) :
    t_len o = ((o.t_end - o.t_begin : Nat) : Int) := by
  obtain ⟨_, _, _, _, _, h1, _, h2⟩ := h
  unfold t_len
  rw [wrapInt32_of_fits] <;> omega

theorem dataAt_of_lt (store : List Sequence) (id b : Nat) (hid : id < store.length)
    (hb : b ≤ (store.getD id ⟨[]⟩).data.length) :
    dataAt store id b = some (((store.getD id ⟨[]⟩).data ++ [NUL]).drop b) := by
  unfold dataAt
  simp only [List.getD_eq_getElem?_getD, List.getElem?_eq_getElem hid, Option.getD_some]
    at hb ⊢
  simp [hb]

theorem dataAt_eq_some (store : List Sequence) (id b : Nat) (v : Bytes)
    (h : dataAt store id b = some v) :
    v = ((store.getD id ⟨[]⟩).data ++ [NUL]).drop b := by
  unfold dataAt at h
  cases hs : store[id]? with
  | none => simp [hs] at h
  | some s =>
    simp only [hs] at h
    split at h
    · simp only [Option.some.injEq] at h
      simp [List.getD_eq_getElem?_getD, hs, ← h]
    · simp at h

theorem resolve_eq_some (m : Machine A) (overlap : Ptr) (T S : List Sequence)
    (q t : Bytes) (h : resolve m overlap T S = some (q, t)) :
    q = ((S.getD (m.heap overlap).q_id ⟨[]⟩).data ++ [NUL]).drop (m.heap overlap).q_begin ∧
    t = ((T.getD (m.heap overlap).t_id ⟨[]⟩).data ++ [NUL]).drop (m.heap overlap).t_begin := by
  unfold resolve at h
  cases hq : dataAt S (m.heap overlap).q_id (m.heap overlap).q_begin with
  | none => simp [hq] at h
  | some q0 =>
    cases ht : dataAt T (m.heap overlap).t_id (m.heap overlap).t_begin with
    | none => simp [hq, ht] at h
    | some t0 =>
      simp only [hq, ht, Option.some.injEq, Prod.mk.injEq] at h
      obtain ⟨rfl, rfl⟩ := h
      exact ⟨dataAt_eq_some _ _ _ _ hq, dataAt_eq_some _ _ _ _ ht⟩

theorem resolve_of_valid (m : Machine A) (overlap : Ptr) (T S : List Sequence)
    (h : ValidRanges (m.heap overlap) T S) :
    resolve m overlap T S
      = some
        (((S.getD (m.heap overlap).q_id ⟨[]⟩).data ++ [NUL]).drop (m.heap overlap).q_begin,
         ((T.getD (m.heap overlap).t_id ⟨[]⟩).data ++ [NUL]).drop (m.heap overlap).t_begin) := by
  obtain ⟨h1, h2, h3, _, h5, h6, h7, _⟩ := h
  unfold resolve
  rw [dataAt_of_lt S _ _ h1 (by omega), dataAt_of_lt T _ _ h5 (by omega)]

theorem stringOfRange_of_valid (d : Bytes) (b e : Nat) (hbe : b ≤ e) (he : e ≤ d.length) :
    stringOfRange ((d ++ [NUL]).drop b) ((e - b : Nat) : Int) = .bytes (byteRange d b e) := by
  have hb : b ≤ d.length := by omega
  have hlt : ¬ (((e - b : Nat) : Int) < 0) := by omega
  have hlen : e - b ≤ (d.drop b).length := by
    rw [List.length_drop]
    omega
  unfold stringOfRange byteRange
  rw [List.drop_append_of_le_length hb]
  simp only [hlt, if_false, Int.toNat_ofNat]
  have hle : e - b ≤ (d.drop b ++ [NUL]).length := by
    rw [List.length_append]
    omega
  rw [if_pos hle, List.take_append_of_le_length hlen]

theorem submit_eq_some (aops : AlignerOps A Al) (m : Machine A) (overlap : Ptr)
    (T S : List Sequence) (s : StatusType)
    (h : admission aops m overlap T S = some s) :
    ∃ q t, resolve m overlap T S = some (q, t) ∧
      (aops.add_alignment m.batch.aligner_ t (t_len (m.heap overlap)) q
        (q_len (m.heap overlap))).1 = s := by
  unfold admission submit at h
  cases hr : resolve m overlap T S with
  | none => simp [hr] at h
  | some qt =>
    obtain ⟨q, t⟩ := qt
    simp only [hr, Option.map_some', Option.some.injEq] at h
    exact ⟨q, t, rfl, h⟩

end Auxiliary

/-! ## addOverlap -/

/-- C1: when the admission check answers `exceeded_max_alignments`, `addOverlap` returns
false and leaves `overlaps_`, `cpu_overlaps_` and `cpu_overlap_data_` as they were. -/
theorem addOverlap_capacity_exceeded {A Al : Type} (aops : AlignerOps A Al) (m : Machine A)
    (overlap : Ptr) (targets sequences : List Sequence)
    (h : admission aops m overlap targets sequences
      = some StatusType.exceeded_max_alignments) :
    ∃ m', addOverlap aops m overlap targets sequences = .returned false m' ∧
      m'.batch.overlaps_ = m.batch.overlaps_ ∧
      m'.batch.cpu_overlaps_ = m.batch.cpu_overlaps_ ∧
      m'.batch.cpu_overlap_data_ = m.batch.cpu_overlap_data_ := by
  obtain ⟨q, t, hr, hs⟩ := submit_eq_some aops m overlap targets sequences _ h
  refine ⟨{ m with batch := { m.batch with
    aligner_ := (aops.add_alignment m.batch.aligner_ t (t_len (m.heap overlap)) q
      (q_len (m.heap overlap))).2 } }, ?_, rfl, rfl, rfl⟩
  simp [addOverlap, hr, hs]

/-- An accelerator created with room for no alignment answers `exceeded_max_alignments`;
the call returns false and the three containers stay empty. -/
theorem addOverlap_capacity_exceeded_witness :
    admission modelAligner (Machine.construct modelAligner 5 10 0 exampleHeap) 0
        exampleStore exampleStore = some StatusType.exceeded_max_alignments ∧
    ∃ m', addOverlap modelAligner (Machine.construct modelAligner 5 10 0 exampleHeap) 0
        exampleStore exampleStore = .returned false m' ∧
      m'.batch.overlaps_ = [] ∧ m'.batch.cpu_overlaps_ = [] ∧
      m'.batch.cpu_overlap_data_ = [] :=
  ⟨by decide,
   addOverlap_capacity_exceeded modelAligner (Machine.construct modelAligner 5 10 0 exampleHeap)
     0 exampleStore exampleStore (by decide)⟩

/-- The fallback branch of `addOverlap` (lines 69-75) for an overlap with valid ranges. -/
theorem addOverlap_fallback_branch {A Al : Type} (aops : AlignerOps A Al) (m : Machine A)
    (overlap : Ptr) (targets sequences : List Sequence)
    (h : admission aops m overlap targets sequences = some StatusType.exceeded_max_length ∨
      admission aops m overlap targets sequences
        = some StatusType.exceeded_max_alignment_difference)
    (hv : ValidRanges (m.heap overlap) targets sequences) :
    ∃ m', addOverlap aops m overlap targets sequences = .returned true m' ∧
      m'.batch.cpu_overlaps_ = m.batch.cpu_overlaps_ ++ [overlap] ∧
      m'.batch.cpu_overlap_data_
        = m.batch.cpu_overlap_data_ ++
          [(byteRange (sequences.getD (m.heap overlap).q_id ⟨[]⟩).data
              (m.heap overlap).q_begin (m.heap overlap).q_end,
            byteRange (targets.getD (m.heap overlap).t_id ⟨[]⟩).data
              (m.heap overlap).t_begin (m.heap overlap).t_end)] ∧
      m'.batch.overlaps_ = m.batch.overlaps_ := by
  have hr := resolve_of_valid m overlap targets sequences hv
  have hq := stringOfRange_of_valid (sequences.getD (m.heap overlap).q_id ⟨[]⟩).data
    (m.heap overlap).q_begin (m.heap overlap).q_end hv.2.1 hv.2.2.1
  have ht := stringOfRange_of_valid (targets.getD (m.heap overlap).t_id ⟨[]⟩).data
    (m.heap overlap).t_begin (m.heap overlap).t_end hv.2.2.2.2.2.1 hv.2.2.2.2.2.2.1
  rw [← q_len_of_valid _ _ _ hv] at hq
  rw [← t_len_of_valid _ _ _ hv] at ht
  rcases h with h | h <;>
  · obtain ⟨q, t, hqt, hs⟩ := submit_eq_some aops m overlap targets sequences _ h
    have he := hr.symm.trans hqt
    simp only [Option.some.injEq, Prod.mk.injEq] at he
    obtain ⟨hq', ht'⟩ := he
    rw [hq'] at hq
    rw [ht'] at ht
    refine ⟨{ m with batch :=
      { aligner_ := (aops.add_alignment m.batch.aligner_ t (t_len (m.heap overlap)) q
          (q_len (m.heap overlap))).2
        overlaps_ := m.batch.overlaps_
        cpu_overlaps_ := m.batch.cpu_overlaps_ ++ [overlap]
        cpu_overlap_data_ := m.batch.cpu_overlap_data_ ++
          [(byteRange (sequences.getD (m.heap overlap).q_id ⟨[]⟩).data
              (m.heap overlap).q_begin (m.heap overlap).q_end,
            byteRange (targets.getD (m.heap overlap).t_id ⟨[]⟩).data
              (m.heap overlap).t_begin (m.heap overlap).t_end)] } }, ?_, rfl, rfl, rfl⟩
    simp [addOverlap, hqt, hs, hq, ht]

/-- A copy that ends one byte past the sequence takes the terminating zero byte of the
string: nine bytes are copied from the eight-byte sequence. -/
theorem addOverlap_copies_terminator :
    ∃ m', addOverlap (stubAligner StatusType.exceeded_max_length)
        (Machine.construct (stubAligner StatusType.exceeded_max_length) 10 10 4 exampleHeap) 4
        exampleStore exampleStore = .returned true m' ∧
      m'.batch.cpu_overlap_data_
        = [(['A', 'C', 'G', 'T', 'A', 'C', 'G', 'T', NUL], ['A', 'C', 'G'])] :=
  ⟨(addOverlap (stubAligner StatusType.exceeded_max_length)
      (Machine.construct (stubAligner StatusType.exceeded_max_length) 10 10 4 exampleHeap) 4
      exampleStore exampleStore).machineOr
      (Machine.construct (stubAligner StatusType.exceeded_max_length) 10 10 4 exampleHeap),
   rfl, by decide⟩

/-- A copy that ends past the terminating zero byte has no defined behaviour. -/
theorem addOverlap_past_buffer_undefined :
    addOverlap (stubAligner StatusType.exceeded_max_length)
        (Machine.construct (stubAligner StatusType.exceeded_max_length) 10 10 4 exampleHeap) 5
        exampleStore exampleStore = .undefined :=
  rfl

/-- An overlap on a sequence the store does not have: the call has no defined behaviour
and does not get as far as the admission check. -/
theorem addOverlap_outside_store_undefined :
    addOverlap (stubAligner StatusType.success)
        (Machine.construct (stubAligner StatusType.success) 10 10 4 exampleHeap) 6
        exampleStore exampleStore = .undefined ∧
    admission (stubAligner StatusType.success)
        (Machine.construct (stubAligner StatusType.success) 10 10 4 exampleHeap) 6
        exampleStore exampleStore = none :=
  ⟨rfl, by decide⟩

/-- C3: when the admission check answers `success`, `addOverlap` returns true, appends the
overlap at the end of `overlaps_`, leaves `cpu_overlaps_` and `cpu_overlap_data_`
unchanged, and neither modifies any overlap nor makes any member call on one. -/
theorem addOverlap_accepted {A Al : Type} (aops : AlignerOps A Al) (m : Machine A)
    (overlap : Ptr) (targets sequences : List Sequence)
    (h : admission aops m overlap targets sequences = some StatusType.success) :
    ∃ m', addOverlap aops m overlap targets sequences = .returned true m' ∧
      m'.batch.overlaps_ = m.batch.overlaps_ ++ [overlap] ∧
      m'.batch.cpu_overlaps_ = m.batch.cpu_overlaps_ ∧
      m'.batch.cpu_overlap_data_ = m.batch.cpu_overlap_data_ ∧
      m'.heap = m.heap ∧
      m'.calls = m.calls := by
  obtain ⟨q, t, hr, hs⟩ := submit_eq_some aops m overlap targets sequences _ h
  refine ⟨{ m with batch := { m.batch with
    aligner_ := (aops.add_alignment m.batch.aligner_ t (t_len (m.heap overlap)) q
      (q_len (m.heap overlap))).2
    overlaps_ := m.batch.overlaps_ ++ [overlap] } }, ?_, rfl, rfl, rfl, rfl, rfl⟩
  simp [addOverlap, hr, hs]

/-- With bounds of ten and ten the example overlap is accepted and queued for the
accelerator; the overlap objects are untouched. -/
theorem addOverlap_accepted_witness :
    admission modelAligner (Machine.construct modelAligner 10 10 4 exampleHeap) 0
        exampleStore exampleStore = some StatusType.success ∧
    ∃ m', addOverlap modelAligner (Machine.construct modelAligner 10 10 4 exampleHeap) 0
        exampleStore exampleStore = .returned true m' ∧
      m'.batch.overlaps_ = [] ++ [0] ∧
      m'.batch.cpu_overlaps_ = [] ∧
      m'.batch.cpu_overlap_data_ = [] ∧
      m'.heap = exampleHeap ∧
      m'.calls = [] :=
  ⟨by decide,
   addOverlap_accepted modelAligner (Machine.construct modelAligner 10 10 4 exampleHeap)
     0 exampleStore exampleStore (by decide)⟩

/-- C4, the code at the failing input: the accelerator answers `generic_error`, `addOverlap`
returns true, and the overlap is in neither queue, so one call has returned true while
`|overlaps_| + |cpu_overlaps_|` is zero. -/
theorem addOverlap_unknown_status_drops :
    ∃ m', addOverlap (stubAligner StatusType.generic_error)
        (Machine.construct (stubAligner StatusType.generic_error) 10 10 4 exampleHeap) 0
        exampleStore exampleStore = .returned true m' ∧
      m'.batch.overlaps_ = [] ∧
      m'.batch.cpu_overlaps_ = [] :=
  ⟨Machine.construct (stubAligner StatusType.generic_error) 10 10 4 exampleHeap, rfl, rfl,
   rfl⟩

/-- The model accelerator follows the admission contract for its own bounds. -/
theorem modelAligner_admission (a : ModelAligner) :
    AdmissionContract modelAligner a.max_query_length a.max_target_length
      a.max_alignments a := by
  intro q ql t tl
  refine ⟨?_, ?_, ?_⟩
  · intro h
    simp only [modelAligner] at h ⊢
    simp [h]
  · intro h hl
    simp only [modelAligner] at h ⊢
    have h1 : ¬ a.max_alignments ≤ a.alignments.length := by omega
    simp [h1, hl]
  · intro h hq ht
    simp only [modelAligner] at h ⊢
    have h1 : ¬ a.max_alignments ≤ a.alignments.length := by omega
    have h2 : ¬ ((a.max_query_length : Int) < ql ∨ (a.max_target_length : Int) < tl) := by
      omega
    simp [h1, h2]

/-- C5 fails as stated: with `max_query_size = 5` and `max_target_size = 10`, an accelerator
that follows the admission contract and holds nothing, the overlap with a query range of
seven bytes (more than `max_query_size`) and a target range of three bytes is queued for the
accelerator and not for the fallback. -/
theorem addOverlap_query_bound_counterexample :
    AdmissionContract modelAligner 5 10 4
      (Machine.construct modelAligner 5 10 4 exampleHeap).batch.aligner_ ∧
    (modelAligner.get_alignments
      (Machine.construct modelAligner 5 10 4 exampleHeap).batch.aligner_).length < 4 ∧
    5 < (exampleHeap 0).q_end - (exampleHeap 0).q_begin ∧
    ∃ m', addOverlap modelAligner (Machine.construct modelAligner 5 10 4 exampleHeap) 0
        exampleStore exampleStore = .returned true m' ∧
      m'.batch.overlaps_ = [0] ∧
      m'.batch.cpu_overlaps_ = [] :=
  ⟨modelAligner_admission ⟨5, 10, 4, []⟩, by decide, by decide,
   (addOverlap modelAligner (Machine.construct modelAligner 5 10 4 exampleHeap) 0
      exampleStore exampleStore).machineOr (Machine.construct modelAligner 5 10 4 exampleHeap),
   rfl, by decide, by decide⟩

/-- C5 as amended: for a dispatcher whose accelerator follows the admission contract for the
bounds `(max_query_size, max_target_size, max_alignments)` and is not at capacity, every
overlap with valid ranges (ordered, within `sequences[q_id]` and `targets[t_id]`, lengths
that fit `int32_t`) whose target range length `t_end - t_begin` exceeds `max_query_size` or
whose query range length `q_end - q_begin` exceeds `max_target_size` makes `addOverlap`
return true, is appended to `cpu_overlaps_` and is not put into `overlaps_`. -/
theorem addOverlap_oversized_rerouted {A Al : Type} (aops : AlignerOps A Al) (m : Machine A)
    (max_query_size max_target_size max_alignments : Nat)
    (overlap : Ptr) (targets sequences : List Sequence)
    (hc : AdmissionContract aops max_query_size max_target_size max_alignments
      m.batch.aligner_)
    (hcap : (aops.get_alignments m.batch.aligner_).length < max_alignments)
    (hv : ValidRanges (m.heap overlap) targets sequences)
    (hlen : max_query_size < (m.heap overlap).t_end - (m.heap overlap).t_begin ∨
      max_target_size < (m.heap overlap).q_end - (m.heap overlap).q_begin) :
    ∃ m', addOverlap aops m overlap targets sequences = .returned true m' ∧
      m'.batch.cpu_overlaps_ = m.batch.cpu_overlaps_ ++ [overlap] ∧
      m'.batch.overlaps_ = m.batch.overlaps_ := by
  have hs : admission aops m overlap targets sequences
      = some StatusType.exceeded_max_length := by
    unfold admission submit
    rw [resolve_of_valid m overlap targets sequences hv]
    simp only [Option.map_some', Option.some.injEq]
    refine (hc _ _ _ _).2.1 hcap ?_
    rw [q_len_of_valid _ _ _ hv, t_len_of_valid _ _ _ hv]
    omega
  obtain ⟨m', h1, h2, _, h4⟩ :=
    addOverlap_fallback_branch aops m overlap targets sequences (Or.inl hs) hv
  exact ⟨m', h1, h2, h4⟩

/-- With `max_query_size = 10` and `max_target_size = 5` the example overlap (query range of
seven bytes, target range of three) goes to the fallback queue. -/
theorem addOverlap_oversized_rerouted_witness :
    AdmissionContract modelAligner 10 5 4
      (Machine.construct modelAligner 10 5 4 exampleHeap).batch.aligner_ ∧
    (modelAligner.get_alignments
      (Machine.construct modelAligner 10 5 4 exampleHeap).batch.aligner_).length < 4 ∧
    ValidRanges ((Machine.construct modelAligner 10 5 4 exampleHeap).heap 0)
      exampleStore exampleStore ∧
    (10 < (exampleHeap 0).t_end - (exampleHeap 0).t_begin ∨
      5 < (exampleHeap 0).q_end - (exampleHeap 0).q_begin) ∧
    ∃ m', addOverlap modelAligner (Machine.construct modelAligner 10 5 4 exampleHeap) 0
        exampleStore exampleStore = .returned true m' ∧
      m'.batch.cpu_overlaps_ = [] ++ [0] ∧
      m'.batch.overlaps_ = [] :=
  ⟨modelAligner_admission ⟨10, 5, 4, []⟩, by decide, by decide, by decide,
   addOverlap_oversized_rerouted modelAligner
     (Machine.construct modelAligner 10 5 4 exampleHeap) 10 5 4 0 exampleStore exampleStore
     (modelAligner_admission ⟨10, 5, 4, []⟩) (by decide) (by decide) (by decide)⟩

/-! ## reset and hasOverlaps -/

/-- C9: after `reset` the containers `overlaps_`, `cpu_overlaps_` and `cpu_overlap_data_` are
empty, as in a freshly constructed dispatcher, the accelerator has been reset, `hasOverlaps`
answers false, and a second `reset` leaves the containers and that answer as they are. -/
theorem reset_clears {A Al : Type} (aops : AlignerOps A Al) (m : Machine A)
    (max_query_size max_target_size max_alignments : Nat) :
    (reset aops m).batch.overlaps_ = [] ∧
    (reset aops m).batch.cpu_overlaps_ = [] ∧
    (reset aops m).batch.cpu_overlap_data_ = [] ∧
    (reset aops m).batch.aligner_ = aops.reset m.batch.aligner_ ∧
    hasOverlaps (reset aops m) = false ∧
    (reset aops m).batch.overlaps_
      = (CUDABatchAligner.construct aops max_query_size max_target_size
          max_alignments).overlaps_ ∧
    (reset aops m).batch.cpu_overlaps_
      = (CUDABatchAligner.construct aops max_query_size max_target_size
          max_alignments).cpu_overlaps_ ∧
    (reset aops m).batch.cpu_overlap_data_
      = (CUDABatchAligner.construct aops max_query_size max_target_size
          max_alignments).cpu_overlap_data_ ∧
    (reset aops (reset aops m)).batch.overlaps_ = (reset aops m).batch.overlaps_ ∧
    (reset aops (reset aops m)).batch.cpu_overlaps_ = (reset aops m).batch.cpu_overlaps_ ∧
    (reset aops (reset aops m)).batch.cpu_overlap_data_
      = (reset aops m).batch.cpu_overlap_data_ ∧
    hasOverlaps (reset aops (reset aops m)) = false := by
  simp [reset, hasOverlaps, CUDABatchAligner.construct]

/-! ## Member calls on overlaps -/

section Calls

variable {A Al : Type}

theorem performAll_batch (oops : OverlapOps) (cs : List OverlapCall) :
    ∀ m : Machine A, (m.performAll oops cs).batch = m.batch := by
  induction cs with
  | nil => intro m; rfl
  | cons c cs ih =>
    intro m
    show ((m.perform oops c).performAll oops cs).batch = m.batch
    rw [ih]
    rfl

theorem performAll_calls (oops : OverlapOps) (cs : List OverlapCall) :
    ∀ m : Machine A, (m.performAll oops cs).calls = m.calls ++ cs := by
  induction cs with
  | nil => intro m; simp [Machine.performAll]
  | cons c cs ih =>
    intro m
    show ((m.perform oops c).performAll oops cs).calls = m.calls ++ c :: cs
    rw [ih]
    simp [Machine.perform]

theorem performAll_heap (oops : OverlapOps) (cs : List OverlapCall) :
    ∀ m : Machine A, (m.performAll oops cs).heap = cs.foldl (applyCall oops) m.heap := by
  induction cs with
  | nil => intro m; rfl
  | cons c cs ih =>
    intro m
    show ((m.perform oops c).performAll oops cs).heap = _
    rw [ih]
    rfl

theorem performAll_append (oops : OverlapOps) (cs ds : List OverlapCall) (m : Machine A) :
    m.performAll oops (cs ++ ds) = (m.performAll oops cs).performAll oops ds := by
  simp [Machine.performAll, List.foldl_append]

/-- A loop whose body performs calls that depend only on the data members and the
loop variable performs the concatenation of those calls. -/
theorem foldl_performAll {α : Type} (oops : OverlapOps)
    (emit : CUDABatchAligner A → α → List OverlapCall) :
    ∀ (l : List α) (m : Machine A),
      l.foldl (fun m x => m.performAll oops (emit m.batch x)) m
        = m.performAll oops (l.map (emit m.batch)).flatten := by
  intro l
  induction l with
  | nil => intro m; rfl
  | cons x l ih =>
    intro m
    rw [List.foldl_cons, ih, performAll_batch, List.map_cons, List.flatten_cons,
      performAll_append]

/-- Indexing a second vector by the loop counter pairs the two vectors up. -/
theorem map_enumFrom_getD {α β γ : Type} (f : β → α → γ) (dflt : β) :
    ∀ (l : List α) (n : Nat) (xs : List β), n + l.length ≤ xs.length →
      (l.enumFrom n).map (fun ap => f (xs.getD ap.1 dflt) ap.2)
        = List.zipWith f (xs.drop n) l := by
  intro l
  induction l with
  | nil => intro n xs _; simp
  | cons a l ih =>
    intro n xs h
    have hn : n < xs.length := by simp at h; omega
    have hl : n + 1 + l.length ≤ xs.length := by simp at h; omega
    rw [List.enumFrom_cons, List.map_cons, ih (n + 1) xs hl, List.drop_eq_getElem_cons hn,
      List.zipWith_cons_cons]
    simp [List.getElem?_eq_getElem hn]

theorem flatten_map_singleton {α β : Type} (f : α → β) (l : List α) :
    (l.map fun x => [f x]).flatten = l.map f := by
  induction l with
  | nil => rfl
  | cons x l ih => simp [ih]

end Calls

/-! ## The loops of compute_cpu_overlaps and find_breaking_points -/

section Loops

variable {A Al : Type}

theorem compute_cpu_overlaps_calls (oops : OverlapOps) (m : Machine A) :
    compute_cpu_overlaps oops m
      = m.performAll oops
          (m.batch.cpu_overlaps_.enum.map fun ap =>
            fallbackCall ap.2 (m.batch.cpu_overlap_data_.getD ap.1 ([], []))) := by
  have key := foldl_performAll oops
    (fun (b : CUDABatchAligner A) (ap : Nat × Ptr) =>
      [fallbackCall ap.2 (b.cpu_overlap_data_.getD ap.1 ([], []))])
    m.batch.cpu_overlaps_.enum m
  have hflat := flatten_map_singleton
    (fun ap : Nat × Ptr => fallbackCall ap.2 (m.batch.cpu_overlap_data_.getD ap.1 ([], [])))
    m.batch.cpu_overlaps_.enum
  rw [hflat] at key
  exact key

theorem compute_cpu_overlaps_eq (oops : OverlapOps) (m : Machine A)
    (h : m.batch.cpu_overlaps_.length = m.batch.cpu_overlap_data_.length) :
    compute_cpu_overlaps oops m
      = m.performAll oops
          (List.zipWith fallbackCall m.batch.cpu_overlaps_ m.batch.cpu_overlap_data_) := by
  rw [compute_cpu_overlaps_calls]
  have hzip := map_enumFrom_getD (fun (d : Bytes × Bytes) (p : Ptr) => fallbackCall p d)
    ([], []) m.batch.cpu_overlaps_ 0 m.batch.cpu_overlap_data_ (by omega)
  rw [List.enum, hzip, List.drop_zero, List.zipWith_comm]

theorem alignAll_eq (aops : AlignerOps A Al) (oops : OverlapOps) (m : Machine A)
    (h : m.batch.cpu_overlaps_.length = m.batch.cpu_overlap_data_.length) :
    alignAll aops oops m
      = Machine.performAll oops
          { m with batch := { m.batch with aligner_ := aops.align_all m.batch.aligner_ } }
          (List.zipWith fallbackCall m.batch.cpu_overlaps_ m.batch.cpu_overlap_data_) :=
  compute_cpu_overlaps_eq oops
    { m with batch := { m.batch with aligner_ := aops.align_all m.batch.aligner_ } } h

theorem alignAll_batch (aops : AlignerOps A Al) (oops : OverlapOps) (m : Machine A) :
    (alignAll aops oops m).batch
      = { m.batch with aligner_ := aops.align_all m.batch.aligner_ } := by
  unfold alignAll
  rw [compute_cpu_overlaps_calls, performAll_batch]

theorem find_breaking_points_loops (aops : AlignerOps A Al) (oops : OverlapOps)
    (window_length : Nat) (m : Machine A) (alignments : List Al) :
    (alignments.enum.foldl
        (fun m aal => find_breaking_points_step aops oops window_length m aal.1 aal.2)
        m).batch.cpu_overlaps_.foldl
      (fun m overlap => m.perform oops (.FindBreakPoints overlap window_length))
      (alignments.enum.foldl
        (fun m aal => find_breaking_points_step aops oops window_length m aal.1 aal.2) m)
    = m.performAll oops
        ((alignments.enum.map fun aal =>
            acceleratorCalls aops.convert_to_cigar window_length
              (m.batch.overlaps_.getD aal.1 0) aal.2).flatten
          ++ m.batch.cpu_overlaps_.map fun p => .FindBreakPoints p window_length) := by
  have key : alignments.enum.foldl
        (fun m aal => find_breaking_points_step aops oops window_length m aal.1 aal.2) m
      = m.performAll oops
        (alignments.enum.map fun aal =>
            acceleratorCalls aops.convert_to_cigar window_length
              (m.batch.overlaps_.getD aal.1 0) aal.2).flatten :=
    foldl_performAll oops
      (fun (b : CUDABatchAligner A) (aal : Nat × Al) =>
        acceleratorCalls aops.convert_to_cigar window_length (b.overlaps_.getD aal.1 0) aal.2)
      alignments.enum m
  rw [key, performAll_batch, performAll_append]
  simp only [Machine.performAll, List.foldl_map]

theorem find_breaking_points_eq (aops : AlignerOps A Al) (oops : OverlapOps)
    (m : Machine A) (window_length : Nat)
    (h : m.batch.overlaps_.length
      = (aops.get_alignments (aops.sync_alignments m.batch.aligner_)).length) :
    find_breaking_points aops oops m window_length
      = .returned (Machine.performAll oops
          { m with batch :=
            { m.batch with aligner_ := aops.sync_alignments m.batch.aligner_ } }
          ((List.zipWith (acceleratorCalls aops.convert_to_cigar window_length)
              m.batch.overlaps_
              (aops.get_alignments (aops.sync_alignments m.batch.aligner_))).flatten
            ++ m.batch.cpu_overlaps_.map fun p => .FindBreakPoints p window_length)) := by
  unfold find_breaking_points
  simp only [h, ne_eq, not_true_eq_false, if_false]
  rw [find_breaking_points_loops]
  have hzip := map_enumFrom_getD
    (fun (p : Ptr) (al : Al) => acceleratorCalls aops.convert_to_cigar window_length p al)
    0 (aops.get_alignments (aops.sync_alignments m.batch.aligner_)) 0 m.batch.overlaps_
    (by omega)
  rw [List.enum, hzip, List.drop_zero]

theorem find_breaking_points_batch (aops : AlignerOps A Al) (oops : OverlapOps)
    (m : Machine A) (window_length : Nat) :
    (find_breaking_points aops oops m window_length).machine.batch
      = { m.batch with aligner_ := aops.sync_alignments m.batch.aligner_ } := by
  by_cases h : m.batch.overlaps_.length
      = (aops.get_alignments (aops.sync_alignments m.batch.aligner_)).length
  · rw [find_breaking_points_eq aops oops m window_length h]
    simp only [Outcome.machine]
    rw [performAll_batch]
  · unfold find_breaking_points
    simp only [ne_eq, h, not_false_eq_true, if_true, Outcome.machine]

end Loops

/-! ## find_breaking_points -/

section BreakingPoints

variable {Al : Type}

/-! ### What the calls do to each overlap -/

theorem applyCall_eq (oops : OverlapOps) (h : Ptr → Overlap) (c : OverlapCall) :
    applyCall oops h c = Function.update h c.target (applyOn oops (h c.target) c) := by
  cases c <;> rfl

/-- A member access changes the overlap it acts on and no other. -/
theorem foldl_applyCall_apply (oops : OverlapOps) (cs : List OverlapCall) :
    ∀ (h : Ptr → Overlap) (p : Ptr),
      (cs.foldl (applyCall oops) h) p = (callsOn p cs).foldl (applyOn oops) (h p) := by
  induction cs with
  | nil => intro h p; rfl
  | cons c cs ih =>
    intro h p
    rw [List.foldl_cons, ih, applyCall_eq]
    by_cases hc : c.target = p
    · subst hc
      simp [callsOn, List.filter_cons]
    · have hne : p ≠ c.target := fun e => hc e.symm
      simp [callsOn, List.filter_cons, hc, Function.update_noteq hne]

theorem callsOn_append (p : Ptr) (cs ds : List OverlapCall) :
    callsOn p (cs ++ ds) = callsOn p cs ++ callsOn p ds := by
  simp [callsOn]

theorem callsOn_cons_eq (p : Ptr) (c : OverlapCall) (cs : List OverlapCall)
    (h : c.target = p) : callsOn p (c :: cs) = c :: callsOn p cs := by
  unfold callsOn
  rw [List.filter_cons_of_pos (by simpa using h)]

theorem callsOn_cons_ne (p : Ptr) (c : OverlapCall) (cs : List OverlapCall)
    (h : ¬ c.target = p) : callsOn p (c :: cs) = callsOn p cs := by
  unfold callsOn
  rw [List.filter_cons_of_neg (by simpa using h)]

theorem callsOn_acceleratorCalls_self (cv : Al → String) (wl : Nat) (p : Ptr) (al : Al) :
    callsOn p (acceleratorCalls cv wl p al) = acceleratorCalls cv wl p al := by
  unfold acceleratorCalls
  rw [callsOn_cons_eq p (OverlapCall.setCigar p (cv al)) _ rfl,
    callsOn_cons_eq p (OverlapCall.FindBreakPoints p wl) _ rfl]
  rfl

theorem callsOn_acceleratorCalls_ne (cv : Al → String) (wl : Nat) (p p0 : Ptr) (al : Al)
    (h : ¬ p0 = p) : callsOn p (acceleratorCalls cv wl p0 al) = [] := by
  unfold acceleratorCalls
  rw [callsOn_cons_ne p (OverlapCall.setCigar p0 (cv al)) _ h,
    callsOn_cons_ne p (OverlapCall.FindBreakPoints p0 wl) _ h]
  rfl

theorem callsOn_accelerator_not_mem (cv : Al → String) (wl : Nat) (p : Ptr) :
    ∀ (ps : List Ptr) (als : List Al), p ∉ ps →
      callsOn p (List.zipWith (acceleratorCalls cv wl) ps als).flatten = [] := by
  intro ps
  induction ps with
  | nil => intro als _; rfl
  | cons p0 ps ih =>
    intro als hp
    cases als with
    | nil => rfl
    | cons al als =>
      have hne : ¬ p0 = p := fun e => hp (by simp [e])
      have hps : p ∉ ps := fun e => hp (by simp [e])
      rw [List.zipWith_cons_cons, List.flatten_cons, callsOn_append, ih als hps,
        callsOn_acceleratorCalls_ne cv wl p p0 al hne]
      rfl

theorem callsOn_accelerator (cv : Al → String) (wl : Nat) :
    ∀ (ps : List Ptr) (als : List Al), ps.Nodup →
      ∀ (a : Nat) (p : Ptr) (al : Al), ps[a]? = some p → als[a]? = some al →
        callsOn p (List.zipWith (acceleratorCalls cv wl) ps als).flatten
          = acceleratorCalls cv wl p al := by
  intro ps
  induction ps with
  | nil => intro als _ a p al hp; simp at hp
  | cons p0 ps ih =>
    intro als hnd a p al hp hal
    cases als with
    | nil => simp at hal
    | cons al0 als =>
      obtain ⟨hp0, hnd'⟩ := List.nodup_cons.mp hnd
      rw [List.zipWith_cons_cons, List.flatten_cons, callsOn_append]
      cases a with
      | zero =>
        simp only [List.getElem?_cons_zero, Option.some.injEq] at hp hal
        subst hp
        subst hal
        rw [callsOn_accelerator_not_mem cv wl p0 ps als hp0,
          callsOn_acceleratorCalls_self, List.append_nil]
      | succ a =>
        simp only [List.getElem?_cons_succ] at hp hal
        have hmem : p ∈ ps := List.mem_iff_getElem?.mpr ⟨a, hp⟩
        have hne : ¬ p0 = p := fun e => hp0 (e ▸ hmem)
        rw [ih als hnd' a p al hp hal, callsOn_acceleratorCalls_ne cv wl p p0 al0 hne,
          List.nil_append]

theorem callsOn_map_findBreakPoints_not_mem (wl : Nat) (p : Ptr) :
    ∀ ps : List Ptr, p ∉ ps →
      callsOn p (ps.map fun q => OverlapCall.FindBreakPoints q wl) = [] := by
  intro ps
  induction ps with
  | nil => intro _; rfl
  | cons p0 ps ih =>
    intro hp
    have hne : ¬ p0 = p := fun e => hp (by simp [e])
    have hps : p ∉ ps := fun e => hp (by simp [e])
    rw [List.map_cons, callsOn_cons_ne p (OverlapCall.FindBreakPoints p0 wl) _ hne, ih hps]

theorem callsOn_map_findBreakPoints (wl : Nat) (p : Ptr) :
    ∀ ps : List Ptr, ps.Nodup → p ∈ ps →
      callsOn p (ps.map fun q => OverlapCall.FindBreakPoints q wl)
        = [OverlapCall.FindBreakPoints p wl] := by
  intro ps
  induction ps with
  | nil => intro _ hp; simp at hp
  | cons p0 ps ih =>
    intro hnd hp
    obtain ⟨hp0, hnd'⟩ := List.nodup_cons.mp hnd
    by_cases he : p0 = p
    · subst he
      rw [List.map_cons, callsOn_cons_eq p0 (OverlapCall.FindBreakPoints p0 wl) _ rfl,
        callsOn_map_findBreakPoints_not_mem wl p0 ps hp0]
    · have hps : p ∈ ps := by
        rcases List.mem_cons.mp hp with e | e
        · exact absurd e.symm he
        · exact e
      rw [List.map_cons, callsOn_cons_ne p (OverlapCall.FindBreakPoints p0 wl) _ he,
        ih hnd' hps]

theorem callsOn_fallback_not_mem (p : Ptr) :
    ∀ (ps : List Ptr) (ds : List (Bytes × Bytes)), p ∉ ps →
      callsOn p (List.zipWith fallbackCall ps ds) = [] := by
  intro ps
  induction ps with
  | nil => intro ds _; rfl
  | cons p0 ps ih =>
    intro ds hp
    cases ds with
    | nil => rfl
    | cons d ds =>
      have hne : ¬ p0 = p := fun e => hp (by simp [e])
      have hps : p ∉ ps := fun e => hp (by simp [e])
      rw [List.zipWith_cons_cons, callsOn_cons_ne p (fallbackCall p0 d) _ hne, ih ds hps]

theorem callsOn_fallback :
    ∀ (ps : List Ptr) (ds : List (Bytes × Bytes)), ps.Nodup →
      ∀ (a : Nat) (p : Ptr) (d : Bytes × Bytes), ps[a]? = some p → ds[a]? = some d →
        callsOn p (List.zipWith fallbackCall ps ds) = [fallbackCall p d] := by
  intro ps
  induction ps with
  | nil => intro ds _ a p d hp; simp at hp
  | cons p0 ps ih =>
    intro ds hnd a p d hp hd
    cases ds with
    | nil => simp at hd
    | cons d0 ds =>
      obtain ⟨hp0, hnd'⟩ := List.nodup_cons.mp hnd
      cases a with
      | zero =>
        simp only [List.getElem?_cons_zero, Option.some.injEq] at hp hd
        subst hp
        subst hd
        rw [List.zipWith_cons_cons, callsOn_cons_eq p0 (fallbackCall p0 d0) _ rfl,
          callsOn_fallback_not_mem p0 ps ds hp0]
      | succ a =>
        simp only [List.getElem?_cons_succ] at hp hd
        have hmem : p ∈ ps := List.mem_iff_getElem?.mpr ⟨a, hp⟩
        have hne : ¬ p0 = p := fun e => hp0 (e ▸ hmem)
        rw [List.zipWith_cons_cons, callsOn_cons_ne p (fallbackCall p0 d0) _ hne,
          ih ds hnd' a p d hp hd]

end BreakingPoints

section PerOverlap

variable {Al : Type}

theorem callsOn_breakingPointCalls_accelerator (cv : Al → String) (wl : Nat)
    (ps : List Ptr) (als : List Al) (cpu : List Ptr) (hd : (ps ++ cpu).Nodup)
    (a : Nat) (p : Ptr) (al : Al) (hp : ps[a]? = some p) (hal : als[a]? = some al) :
    callsOn p (breakingPointCalls cv wl ps als cpu) = acceleratorCalls cv wl p al := by
  obtain ⟨h1, _, h3⟩ := List.nodup_append.mp hd
  have hmem : p ∈ ps := List.mem_iff_getElem?.mpr ⟨a, hp⟩
  have hcpu : p ∉ cpu := fun e => h3 hmem e
  unfold breakingPointCalls
  rw [callsOn_append, callsOn_accelerator cv wl ps als h1 a p al hp hal,
    callsOn_map_findBreakPoints_not_mem wl p cpu hcpu, List.append_nil]

theorem callsOn_breakingPointCalls_fallback (cv : Al → String) (wl : Nat)
    (ps : List Ptr) (als : List Al) (cpu : List Ptr) (hd : (ps ++ cpu).Nodup)
    (p : Ptr) (hp : p ∈ cpu) :
    callsOn p (breakingPointCalls cv wl ps als cpu) = [OverlapCall.FindBreakPoints p wl] := by
  obtain ⟨_, h2, h3⟩ := List.nodup_append.mp hd
  have hps : p ∉ ps := fun e => h3 e hp
  unfold breakingPointCalls
  rw [callsOn_append, callsOn_accelerator_not_mem cv wl p ps als hps,
    callsOn_map_findBreakPoints wl p cpu h2 hp, List.nil_append]

theorem callsOn_breakingPointCalls_other (cv : Al → String) (wl : Nat)
    (ps : List Ptr) (als : List Al) (cpu : List Ptr)
    (p : Ptr) (hps : p ∉ ps) (hcpu : p ∉ cpu) :
    callsOn p (breakingPointCalls cv wl ps als cpu) = [] := by
  unfold breakingPointCalls
  rw [callsOn_append, callsOn_accelerator_not_mem cv wl p ps als hps,
    callsOn_map_findBreakPoints_not_mem wl p cpu hcpu, List.append_nil]

end PerOverlap

/-- C6: `find_breaking_points` throws exactly when the number of alignments the accelerator
returns after synchronising differs from `|overlaps_|`; when it throws, that call has made
no member call on any overlap (no cigar assigned, no breakpoint finding), the overlaps are
as they were, and the three containers are unchanged. -/
theorem find_breaking_points_throws_iff {A Al : Type} (aops : AlignerOps A Al)
    (oops : OverlapOps) (m : Machine A) (window_length : Nat) :
    ((find_breaking_points aops oops m window_length).failed = true ↔
      (aops.get_alignments (aops.sync_alignments m.batch.aligner_)).length
        ≠ m.batch.overlaps_.length) ∧
    ((find_breaking_points aops oops m window_length).failed = true →
      (find_breaking_points aops oops m window_length).machine.calls = m.calls ∧
      (find_breaking_points aops oops m window_length).machine.heap = m.heap ∧
      (find_breaking_points aops oops m window_length).machine.batch.overlaps_
        = m.batch.overlaps_ ∧
      (find_breaking_points aops oops m window_length).machine.batch.cpu_overlaps_
        = m.batch.cpu_overlaps_ ∧
      (find_breaking_points aops oops m window_length).machine.batch.cpu_overlap_data_
        = m.batch.cpu_overlap_data_) := by
  by_cases h : m.batch.overlaps_.length
      = (aops.get_alignments (aops.sync_alignments m.batch.aligner_)).length
  · rw [find_breaking_points_eq aops oops m window_length h]
    simp [Outcome.failed, h]
  · have hne : (aops.get_alignments (aops.sync_alignments m.batch.aligner_)).length
        ≠ m.batch.overlaps_.length := fun e => h e.symm
    unfold find_breaking_points
    simp [h, hne, Outcome.failed, Outcome.machine]

/-- An accelerator stub that answers `success` but returns no alignment: one overlap is
queued, `find_breaking_points` throws and touches nothing. -/
theorem find_breaking_points_throws_witness :
    (find_breaking_points (stubAligner StatusType.success) exampleOverlapOps
      ((addOverlap (stubAligner StatusType.success)
        (Machine.construct (stubAligner StatusType.success) 10 10 4 exampleHeap) 0
        exampleStore exampleStore).machineOr
        (Machine.construct (stubAligner StatusType.success) 10 10 4 exampleHeap))
      500).failed = true ∧
    (find_breaking_points (stubAligner StatusType.success) exampleOverlapOps
      ((addOverlap (stubAligner StatusType.success)
        (Machine.construct (stubAligner StatusType.success) 10 10 4 exampleHeap) 0
        exampleStore exampleStore).machineOr
        (Machine.construct (stubAligner StatusType.success) 10 10 4 exampleHeap))
      500).machine.calls = [] :=
  ⟨by decide,
   ((find_breaking_points_throws_iff (stubAligner StatusType.success) exampleOverlapOps
      ((addOverlap (stubAligner StatusType.success)
        (Machine.construct (stubAligner StatusType.success) 10 10 4 exampleHeap) 0
        exampleStore exampleStore).machineOr
        (Machine.construct (stubAligner StatusType.success) 10 10 4 exampleHeap))
      500).2 (by decide)).1⟩

/-- The second example is reachable: the same overlap 0 was submitted twice, accepted by the
accelerator the first time and sent to the fallback the second time. -/
theorem exampleShared_reaches :
    Reaches (scriptedAligner sharedScript) exampleOverlapOps exampleShared
      [⟨0, exampleHeap 0, exampleStore, exampleStore⟩] := by
  have h0 : Reaches (scriptedAligner sharedScript) exampleOverlapOps exampleShared0 [] :=
    Reaches.byConstruct 10 10 4 exampleHeap
  have e1 : addOverlap (scriptedAligner sharedScript) exampleShared0 0 exampleStore
      exampleStore = .returned true exampleShared1 := rfl
  have e2 : addOverlap (scriptedAligner sharedScript) exampleShared1 0 exampleStore
      exampleStore = .returned true exampleShared := rfl
  exact Reaches.byAddOverlap 0 exampleStore exampleStore true
    (Reaches.byAddOverlap 0 exampleStore exampleStore true h0 e1) e2

/-- C7 fails as stated: in the reachable state where the same overlap 0 is in `overlaps_` and
in `cpu_overlaps_` and the accelerator returns one alignment for the one entry of
`overlaps_`, `find_breaking_points` assigns the cigar of overlap 0, which is a fallback
overlap, and runs breakpoint finding on it twice. -/
theorem find_breaking_points_shared_counterexample :
    Reachable (scriptedAligner sharedScript) exampleOverlapOps exampleSharedAligned ∧
    ((scriptedAligner sharedScript).get_alignments
        ((scriptedAligner sharedScript).sync_alignments
          exampleSharedAligned.batch.aligner_)).length
      = exampleSharedAligned.batch.overlaps_.length ∧
    exampleSharedAligned.batch.overlaps_ = [0] ∧
    exampleSharedAligned.batch.cpu_overlaps_ = [0] ∧
    (find_breaking_points (scriptedAligner sharedScript) exampleOverlapOps
        exampleSharedAligned 500).machine.calls
      = exampleSharedAligned.calls ++
        [.setCigar 0 "MMM", .FindBreakPoints 0 500, .FindBreakPoints 0 500] ∧
    ((find_breaking_points (scriptedAligner sharedScript) exampleOverlapOps
        exampleSharedAligned 500).machine.heap 0).breaking_points.length = 2 :=
  ⟨⟨_, Reaches.byAlignAll exampleShared_reaches⟩, by decide, by decide, by decide, by decide,
   by decide⟩

/-- C7 as amended: when the accelerator returns exactly `|overlaps_|` alignments and no
overlap is queued twice (the entries of `overlaps_` and `cpu_overlaps_` together are
pairwise distinct), `find_breaking_points` returns normally and
* the member calls it makes are, in order: for every index `a`, the assignment of the cigar
  converted from the `a`-th alignment to `overlaps_[a]` followed by breakpoint finding with
  `window_length` on `overlaps_[a]`; then breakpoint finding on every entry of
  `cpu_overlaps_`;
* on `overlaps_[a]` it makes exactly these two calls, leaving that overlap as
  `FindBreakPoints(window_length)` leaves it after its cigar was set to the converted
  `a`-th alignment;
* on every overlap of `cpu_overlaps_` it makes exactly one call, breakpoint finding with
  `window_length`, and no cigar assignment;
* it makes no call on any other overlap and leaves it as it was;
* the three containers are unchanged. -/
theorem find_breaking_points_assigns {A Al : Type} (aops : AlignerOps A Al)
    (oops : OverlapOps) (m : Machine A) (window_length : Nat)
    (h : (aops.get_alignments (aops.sync_alignments m.batch.aligner_)).length
      = m.batch.overlaps_.length)
    (hd : (m.batch.overlaps_ ++ m.batch.cpu_overlaps_).Nodup) :
    (find_breaking_points aops oops m window_length).failed = false ∧
    (find_breaking_points aops oops m window_length).machine.calls
      = m.calls ++ breakingPointCalls aops.convert_to_cigar window_length m.batch.overlaps_
          (aops.get_alignments (aops.sync_alignments m.batch.aligner_))
          m.batch.cpu_overlaps_ ∧
    (∀ (a : Nat) (p : Ptr) (al : Al), m.batch.overlaps_[a]? = some p →
      (aops.get_alignments (aops.sync_alignments m.batch.aligner_))[a]? = some al →
      callsOn p (breakingPointCalls aops.convert_to_cigar window_length m.batch.overlaps_
          (aops.get_alignments (aops.sync_alignments m.batch.aligner_))
          m.batch.cpu_overlaps_)
        = [.setCigar p (aops.convert_to_cigar al), .FindBreakPoints p window_length] ∧
      (find_breaking_points aops oops m window_length).machine.heap p
        = oops.FindBreakPoints { m.heap p with cigar := aops.convert_to_cigar al }
            window_length) ∧
    (∀ p ∈ m.batch.cpu_overlaps_,
      callsOn p (breakingPointCalls aops.convert_to_cigar window_length m.batch.overlaps_
          (aops.get_alignments (aops.sync_alignments m.batch.aligner_))
          m.batch.cpu_overlaps_)
        = [.FindBreakPoints p window_length] ∧
      (find_breaking_points aops oops m window_length).machine.heap p
        = oops.FindBreakPoints (m.heap p) window_length) ∧
    (∀ p, p ∉ m.batch.overlaps_ → p ∉ m.batch.cpu_overlaps_ →
      callsOn p (breakingPointCalls aops.convert_to_cigar window_length m.batch.overlaps_
          (aops.get_alignments (aops.sync_alignments m.batch.aligner_))
          m.batch.cpu_overlaps_) = [] ∧
      (find_breaking_points aops oops m window_length).machine.heap p = m.heap p) ∧
    (find_breaking_points aops oops m window_length).machine.batch.overlaps_
      = m.batch.overlaps_ ∧
    (find_breaking_points aops oops m window_length).machine.batch.cpu_overlaps_
      = m.batch.cpu_overlaps_ ∧
    (find_breaking_points aops oops m window_length).machine.batch.cpu_overlap_data_
      = m.batch.cpu_overlap_data_ := by
  have hb := find_breaking_points_batch aops oops m window_length
  have heq := find_breaking_points_eq aops oops m window_length h.symm
  have hheap : ∀ p, (find_breaking_points aops oops m window_length).machine.heap p
      = (callsOn p (breakingPointCalls aops.convert_to_cigar window_length m.batch.overlaps_
          (aops.get_alignments (aops.sync_alignments m.batch.aligner_))
          m.batch.cpu_overlaps_)).foldl (applyOn oops) (m.heap p) := by
    intro p
    rw [heq]
    simp only [Outcome.machine]
    rw [performAll_heap, foldl_applyCall_apply]
    rfl
  refine ⟨?_, ?_, ?_, ?_, ?_, ?_, ?_, ?_⟩
  · rw [heq]
    rfl
  · rw [heq]
    simp only [Outcome.machine]
    rw [performAll_calls]
    rfl
  · intro a p al hp hal
    have hc := callsOn_breakingPointCalls_accelerator aops.convert_to_cigar window_length
      m.batch.overlaps_ (aops.get_alignments (aops.sync_alignments m.batch.aligner_))
      m.batch.cpu_overlaps_ hd a p al hp hal
    refine ⟨hc, ?_⟩
    rw [hheap, hc]
    rfl
  · intro p hp
    have hc := callsOn_breakingPointCalls_fallback aops.convert_to_cigar window_length
      m.batch.overlaps_ (aops.get_alignments (aops.sync_alignments m.batch.aligner_))
      m.batch.cpu_overlaps_ hd p hp
    refine ⟨hc, ?_⟩
    rw [hheap, hc]
    rfl
  · intro p hp1 hp2
    have hc := callsOn_breakingPointCalls_other aops.convert_to_cigar window_length
      m.batch.overlaps_ (aops.get_alignments (aops.sync_alignments m.batch.aligner_))
      m.batch.cpu_overlaps_ p hp1 hp2
    refine ⟨hc, ?_⟩
    rw [hheap, hc]
    rfl
  · rw [hb]
  · rw [hb]
  · rw [hb]

/-- After `alignAll` on the example dispatcher the accelerator returns two alignments for the
two queued overlaps and no overlap is queued twice; `find_breaking_points` assigns their
cigars to overlaps 0 and 1 and runs breakpoint finding once on each of 0, 1 and the
fallback overlap 2. -/
theorem find_breaking_points_assigns_witness :
    (modelAligner.get_alignments
        (modelAligner.sync_alignments exampleAligned.batch.aligner_)).length
      = exampleAligned.batch.overlaps_.length ∧
    (exampleAligned.batch.overlaps_ ++ exampleAligned.batch.cpu_overlaps_).Nodup ∧
    (find_breaking_points modelAligner exampleOverlapOps exampleAligned 500).failed = false ∧
    (find_breaking_points modelAligner exampleOverlapOps exampleAligned 500).machine.calls
      = exampleAligned.calls ++
        [.setCigar 0 "MMM", .FindBreakPoints 0 500, .setCigar 1 "MMM",
          .FindBreakPoints 1 500, .FindBreakPoints 2 500] ∧
    (find_breaking_points modelAligner exampleOverlapOps exampleAligned 500).machine.heap 2
      = exampleOverlapOps.FindBreakPoints (exampleAligned.heap 2) 500 :=
  ⟨by decide, by decide,
   (find_breaking_points_assigns modelAligner exampleOverlapOps exampleAligned 500
      (by decide) (by decide)).1,
   (find_breaking_points_assigns modelAligner exampleOverlapOps exampleAligned 500
      (by decide) (by decide)).2.1.trans (by decide),
   ((find_breaking_points_assigns modelAligner exampleOverlapOps exampleAligned 500
      (by decide) (by decide)).2.2.2.1 2 (by decide)).2⟩

/-! ## Reachable states -/

section Invariants

variable {A Al : Type}

theorem stringOfRange_eq_bytes (p : Bytes) (len : Int) (bs : Bytes)
    (h : stringOfRange p len = .bytes bs) : bs = p.take len.toNat := by
  unfold stringOfRange at h
  split at h
  · simp at h
  · split at h
    · simp only [RangeCopy.bytes.injEq] at h
      exact h.symm
    · simp at h

theorem admitted_of_resolve (aops : AlignerOps A Al) (m : Machine A) (overlap : Ptr)
    (T S : List Sequence) (q t : Bytes) (hr : resolve m overlap T S = some (q, t)) :
    admitted aops m overlap T S
      = if isFallback (aops.add_alignment m.batch.aligner_ t (t_len (m.heap overlap)) q
          (q_len (m.heap overlap))).1 then
          [⟨overlap, m.heap overlap, T, S⟩]
        else [] := by
  simp [admitted, admission, submit, hr]

/-- What a returning call of `addOverlap` has done to the data members. -/
theorem addOverlap_returned (aops : AlignerOps A Al) (m m' : Machine A) (overlap : Ptr)
    (T S : List Sequence) (b : Bool)
    (h : addOverlap aops m overlap T S = .returned b m') :
    ∃ q t, resolve m overlap T S = some (q, t) ∧
      m'.batch.aligner_
        = (aops.add_alignment m.batch.aligner_ t (t_len (m.heap overlap)) q
            (q_len (m.heap overlap))).2 ∧
      m'.batch.overlaps_
        = (if (aops.add_alignment m.batch.aligner_ t (t_len (m.heap overlap)) q
              (q_len (m.heap overlap))).1 = StatusType.success then
            m.batch.overlaps_ ++ [overlap]
          else m.batch.overlaps_) ∧
      m'.batch.cpu_overlaps_
        = m.batch.cpu_overlaps_ ++ (admitted aops m overlap T S).map Admission.ptr ∧
      m'.batch.cpu_overlap_data_
        = m.batch.cpu_overlap_data_
          ++ (admitted aops m overlap T S).map Admission.copied := by
  cases hr : resolve m overlap T S with
  | none => simp [addOverlap, hr] at h
  | some qt =>
    obtain ⟨q, t⟩ := qt
    obtain ⟨hq, ht⟩ := resolve_eq_some m overlap T S q t hr
    refine ⟨q, t, rfl, ?_⟩
    rw [admitted_of_resolve aops m overlap T S q t hr]
    rcases hs : (aops.add_alignment m.batch.aligner_ t (t_len (m.heap overlap)) q
        (q_len (m.heap overlap))).1
    case exceeded_max_length =>
      cases hcq : stringOfRange q (q_len (m.heap overlap)) <;>
        cases hct : stringOfRange t (t_len (m.heap overlap)) <;>
        simp [addOverlap, hr, hs, hcq, hct] at h
      rename_i qs ts
      obtain ⟨_, rfl⟩ := h
      have e1 := stringOfRange_eq_bytes _ _ _ hcq
      have e2 := stringOfRange_eq_bytes _ _ _ hct
      simp [isFallback, Admission.copied, e1, e2, hq, ht]
    case exceeded_max_alignment_difference =>
      cases hcq : stringOfRange q (q_len (m.heap overlap)) <;>
        cases hct : stringOfRange t (t_len (m.heap overlap)) <;>
        simp [addOverlap, hr, hs, hcq, hct] at h
      rename_i qs ts
      obtain ⟨_, rfl⟩ := h
      have e1 := stringOfRange_eq_bytes _ _ _ hcq
      have e2 := stringOfRange_eq_bytes _ _ _ hct
      simp [isFallback, Admission.copied, e1, e2, hq, ht]
    all_goals
      simp [addOverlap, hr, hs] at h
      obtain ⟨_, rfl⟩ := h
      simp [isFallback]

/-- What a throwing call of `addOverlap` has done to the data members: the accelerator
answered with one of the two fallback statuses and only its state has changed. -/
theorem addOverlap_threw (aops : AlignerOps A Al) (m m' : Machine A) (overlap : Ptr)
    (T S : List Sequence) (what : String)
    (h : addOverlap aops m overlap T S = .threw what m') :
    ∃ q t, (aops.add_alignment m.batch.aligner_ t (t_len (m.heap overlap)) q
          (q_len (m.heap overlap))).1 ≠ StatusType.success ∧
      m'.batch.aligner_
        = (aops.add_alignment m.batch.aligner_ t (t_len (m.heap overlap)) q
            (q_len (m.heap overlap))).2 ∧
      m'.batch.overlaps_ = m.batch.overlaps_ ∧
      m'.batch.cpu_overlaps_ = m.batch.cpu_overlaps_ ∧
      m'.batch.cpu_overlap_data_ = m.batch.cpu_overlap_data_ := by
  cases hr : resolve m overlap T S with
  | none => simp [addOverlap, hr] at h
  | some qt =>
    obtain ⟨q, t⟩ := qt
    refine ⟨q, t, ?_⟩
    rcases hs : (aops.add_alignment m.batch.aligner_ t (t_len (m.heap overlap)) q
        (q_len (m.heap overlap))).1
    case exceeded_max_length =>
      cases hcq : stringOfRange q (q_len (m.heap overlap)) <;>
        cases hct : stringOfRange t (t_len (m.heap overlap)) <;>
        simp [addOverlap, hr, hs, hcq, hct] at h <;>
        (obtain ⟨_, rfl⟩ := h; simp)
    case exceeded_max_alignment_difference =>
      cases hcq : stringOfRange q (q_len (m.heap overlap)) <;>
        cases hct : stringOfRange t (t_len (m.heap overlap)) <;>
        simp [addOverlap, hr, hs, hcq, hct] at h <;>
        (obtain ⟨_, rfl⟩ := h; simp)
    all_goals simp [addOverlap, hr, hs] at h

/-- The fallback queue and the owned copies are, entry by entry, the fallback admissions
since the last reset. -/
theorem reaches_fallback (aops : AlignerOps A Al) (oops : OverlapOps) (m : Machine A)
    (g : List Admission) (hr : Reaches aops oops m g) :
    m.batch.cpu_overlaps_ = g.map Admission.ptr ∧
    m.batch.cpu_overlap_data_ = g.map Admission.copied := by
  induction hr with
  | byConstruct mq mt ma heap => exact ⟨rfl, rfl⟩
  | byAddOverlap overlap targets sequences accepted _ hret ih =>
    obtain ⟨q, t, _, _, _, h1, h2⟩ := addOverlap_returned aops _ _ overlap targets sequences _ hret
    rw [h1, h2, ih.1, ih.2]
    simp
  | byAddOverlapThrow overlap targets sequences what _ hthrow ih =>
    obtain ⟨q, t, _, _, _, h1, h2⟩ := addOverlap_threw aops _ _ overlap targets sequences _ hthrow
    rw [h1, h2]
    exact ih
  | byAlignAll _ ih =>
    rw [alignAll_batch]
    exact ih
  | byFindBreakingPoints wl _ ih =>
    rw [find_breaking_points_batch]
    exact ih
  | byReset _ _ => exact ⟨rfl, rfl⟩
  | byCaller heap _ ih => exact ih

/-- Under the results contract the accelerator holds as many alignments as `overlaps_` has
entries. -/
theorem reaches_results (aops : AlignerOps A Al) (oops : OverlapOps) (hc : ResultContract aops)
    (m : Machine A) (g : List Admission) (hr : Reaches aops oops m g) :
    (aops.get_alignments m.batch.aligner_).length = m.batch.overlaps_.length := by
  induction hr with
  | byConstruct mq mt ma heap =>
    show (aops.get_alignments (aops.create_aligner mq mt ma)).length = 0
    rw [hc.created]
    rfl
  | byAddOverlap overlap targets sequences accepted _ hret ih =>
    obtain ⟨q, t, _, h1, h2, _, _⟩ :=
      addOverlap_returned aops _ _ overlap targets sequences _ hret
    rw [h1, h2]
    split
    · rename_i hs
      obtain ⟨al, hal⟩ := hc.accepted _ _ _ _ _ hs
      rw [hal]
      simp [ih]
    · rename_i hs
      rw [hc.rejected _ _ _ _ _ hs]
      exact ih
  | byAddOverlapThrow overlap targets sequences what _ hthrow ih =>
    obtain ⟨q, t, hs, h1, h2, _, _⟩ :=
      addOverlap_threw aops _ _ overlap targets sequences _ hthrow
    rw [h1, h2, hc.rejected _ _ _ _ _ hs]
    exact ih
  | byAlignAll _ ih =>
    rw [alignAll_batch]
    show (aops.get_alignments (aops.align_all _)).length = _
    rw [hc.ran]
    exact ih
  | byFindBreakingPoints wl _ ih =>
    rw [find_breaking_points_batch]
    show (aops.get_alignments (aops.sync_alignments _)).length = _
    rw [hc.synced]
    exact ih
  | byReset _ _ =>
    show (aops.get_alignments (aops.reset _)).length = 0
    rw [hc.cleared]
    rfl
  | byCaller heap _ ih => exact ih

theorem take_wrapInt32_length_lt (p : Bytes) (x : Int) :
    (p.take (wrapInt32 x).toNat).length < 2147483648 := by
  have h : (wrapInt32 x).toNat < 2147483648 := by
    unfold wrapInt32
    omega
  rw [List.length_take]
  omega

theorem copied_length_lt (x : Admission) :
    x.copied.1.length < 2147483648 ∧ x.copied.2.length < 2147483648 :=
  ⟨take_wrapInt32_length_lt _ _, take_wrapInt32_length_lt _ _⟩

theorem copied_of_valid (x : Admission) (hv : ValidRanges x.overlap x.targets x.sequences) :
    x.copied = (x.queryBytes, x.targetBytes) := by
  have hq := stringOfRange_of_valid (x.sequences.getD x.overlap.q_id ⟨[]⟩).data
    x.overlap.q_begin x.overlap.q_end hv.2.1 hv.2.2.1
  have ht := stringOfRange_of_valid (x.targets.getD x.overlap.t_id ⟨[]⟩).data
    x.overlap.t_begin x.overlap.t_end hv.2.2.2.2.2.1 hv.2.2.2.2.2.2.1
  rw [← q_len_of_valid _ _ _ hv] at hq
  rw [← t_len_of_valid _ _ _ hv] at ht
  unfold Admission.copied Admission.queryBytes Admission.targetBytes
  rw [← stringOfRange_eq_bytes _ _ _ hq, ← stringOfRange_eq_bytes _ _ _ ht]

theorem zipWith_fallbackCall_map (g : List Admission) (f : Admission → Bytes × Bytes) :
    List.zipWith fallbackCall (g.map Admission.ptr) (g.map f)
      = g.map fun x => fallbackCall x.ptr (f x) := by
  induction g with
  | nil => rfl
  | cons x g ih => simp [ih]

/-- The model accelerator keeps the results contract. -/
theorem modelAligner_results : ResultContract modelAligner where
  created := fun _ _ _ => rfl
  accepted := by
    intro a q ql t tl h
    simp only [modelAligner] at h ⊢
    split at h
    · simp at h
    · split at h
      · simp at h
      · rename_i h1 h2
        simp [h1, h2]
  rejected := by
    intro a q ql t tl h
    simp only [modelAligner] at h ⊢
    split at h
    · rename_i h1
      simp [h1]
    · split at h
      · rename_i h1 h2
        simp [h1, h2]
      · simp at h
  ran := fun _ => rfl
  synced := fun _ => rfl
  cleared := fun _ => rfl

end Invariants

/-- The example dispatcher is reachable; its one fallback admission is that of overlap 2. -/
theorem exampleMachine_reaches :
    Reaches modelAligner exampleOverlapOps exampleMachine
      [⟨2, exampleHeap 2, exampleStore, exampleStore⟩] := by
  have h0 : Reaches modelAligner exampleOverlapOps exampleMachine0 [] :=
    Reaches.byConstruct 10 7 4 exampleHeap
  have e1 : addOverlap modelAligner exampleMachine0 0 exampleStore exampleStore
      = .returned true exampleMachine1 := rfl
  have e2 : addOverlap modelAligner exampleMachine1 2 exampleStore exampleStore
      = .returned true exampleMachine2 := rfl
  have e3 : addOverlap modelAligner exampleMachine2 1 exampleStore exampleStore
      = .returned true exampleMachine := rfl
  exact Reaches.byAddOverlap 1 exampleStore exampleStore true
    (Reaches.byAddOverlap 2 exampleStore exampleStore true
      (Reaches.byAddOverlap 0 exampleStore exampleStore true h0 e1) e2) e3

/-! ## alignAll -/

/-- C8 fails as stated: in the reachable state where the same overlap 0 was accepted by the
accelerator and later sent to the fallback, overlap 0 is in the accelerator queue and
`alignAll` invokes the fallback alignment on it. -/
theorem alignAll_shared_counterexample :
    Reaches (scriptedAligner sharedScript) exampleOverlapOps exampleShared
      [⟨0, exampleHeap 0, exampleStore, exampleStore⟩] ∧
    exampleShared.batch.overlaps_ = [0] ∧
    exampleShared.batch.cpu_overlaps_ = [0] ∧
    (alignAll (scriptedAligner sharedScript) exampleOverlapOps exampleShared).calls
      = exampleShared.calls
        ++ [.Align 0 ['A', 'C', 'G', 'T', 'A', 'C', 'G'] 7 ['A', 'C', 'G'] 3] ∧
    (exampleShared.heap 0).cigar = "" ∧
    ((alignAll (scriptedAligner sharedScript) exampleOverlapOps exampleShared).heap 0).cigar
      = "MMMMMMM" :=
  ⟨exampleShared_reaches, by decide, by decide, by decide, by decide, by decide⟩

/-- C8 as amended: in every state reached from construction by `addOverlap`, `alignAll`,
`find_breaking_points` and `reset` (the caller may change its overlaps in between), with
`g` the fallback admissions since the last reset:
* `|cpu_overlaps_| = |cpu_overlap_data_|`, and `cpu_overlaps_` lists the admitted pointers
  in order;
* for every admission whose ranges are ordered, lie within the sequences and have lengths
  that fit `int32_t`, the owned copy at the same index is the pair of the query bytes
  `[q_begin, q_end)` and target bytes `[t_begin, t_end)` as they were at admission;
* the member calls `alignAll` makes are exactly one `Align` per index `a`, in queue order,
  on `cpu_overlaps_[a]` with the bytes of `cpu_overlap_data_[a]` and their full lengths
  (each below `2 ^ 31`);
* `alignAll` makes no call on an overlap that is not in `cpu_overlaps_` and leaves it as it
  was, so an overlap of the accelerator queue is called only if it is also in the fallback
  queue;
* when no overlap is in `cpu_overlaps_` twice, the overlap `cpu_overlaps_[a]` gets exactly
  that one call and ends up as `Align` on the copies of index `a` leaves it;
* when all admissions had valid ranges the calls are
  `Align(ptr, query bytes, length, target bytes, length)` of the admissions. -/
theorem alignAll_fallback_inputs {A Al : Type} (aops : AlignerOps A Al) (oops : OverlapOps)
    (m : Machine A) (g : List Admission) (hr : Reaches aops oops m g) :
    m.batch.cpu_overlaps_.length = m.batch.cpu_overlap_data_.length ∧
    m.batch.cpu_overlaps_ = g.map Admission.ptr ∧
    (∀ (a : Nat) (x : Admission), g[a]? = some x →
      ValidRanges x.overlap x.targets x.sequences →
      m.batch.cpu_overlaps_[a]? = some x.ptr ∧
      m.batch.cpu_overlap_data_[a]? = some (x.queryBytes, x.targetBytes)) ∧
    (alignAll aops oops m).calls
      = m.calls ++ List.zipWith fallbackCall m.batch.cpu_overlaps_ m.batch.cpu_overlap_data_ ∧
    (List.zipWith fallbackCall m.batch.cpu_overlaps_ m.batch.cpu_overlap_data_).length
      = m.batch.cpu_overlaps_.length ∧
    (∀ d ∈ m.batch.cpu_overlap_data_, d.1.length < 2147483648 ∧ d.2.length < 2147483648) ∧
    (∀ p, p ∉ m.batch.cpu_overlaps_ →
      callsOn p (List.zipWith fallbackCall m.batch.cpu_overlaps_ m.batch.cpu_overlap_data_)
        = [] ∧
      (alignAll aops oops m).heap p = m.heap p) ∧
    (m.batch.cpu_overlaps_.Nodup →
      ∀ (a : Nat) (p : Ptr) (d : Bytes × Bytes), m.batch.cpu_overlaps_[a]? = some p →
        m.batch.cpu_overlap_data_[a]? = some d →
        callsOn p (List.zipWith fallbackCall m.batch.cpu_overlaps_ m.batch.cpu_overlap_data_)
          = [.Align p d.1 d.1.length d.2 d.2.length] ∧
        (alignAll aops oops m).heap p = oops.Align (m.heap p) d.1 d.1.length d.2 d.2.length) ∧
    ((∀ x ∈ g, ValidRanges x.overlap x.targets x.sequences) →
      (alignAll aops oops m).calls
        = m.calls ++ g.map fun x =>
            OverlapCall.Align x.ptr x.queryBytes x.queryBytes.length
              x.targetBytes x.targetBytes.length) := by
  obtain ⟨h1, h2⟩ := reaches_fallback aops oops m g hr
  have hlen : m.batch.cpu_overlaps_.length = m.batch.cpu_overlap_data_.length := by
    rw [h1, h2]
    simp
  have hcalls : (alignAll aops oops m).calls
      = m.calls
        ++ List.zipWith fallbackCall m.batch.cpu_overlaps_ m.batch.cpu_overlap_data_ := by
    rw [alignAll_eq aops oops m hlen, performAll_calls]
  have hheap : ∀ p, (alignAll aops oops m).heap p
      = (callsOn p (List.zipWith fallbackCall m.batch.cpu_overlaps_
          m.batch.cpu_overlap_data_)).foldl (applyOn oops) (m.heap p) := by
    intro p
    rw [alignAll_eq aops oops m hlen, performAll_heap, foldl_applyCall_apply]
  refine ⟨hlen, h1, ?_, hcalls, ?_, ?_, ?_, ?_, ?_⟩
  · intro a x hx hv
    rw [h1, h2]
    simp [hx, copied_of_valid x hv]
  · simp [hlen]
  · intro d hd
    rw [h2] at hd
    obtain ⟨x, _, rfl⟩ := List.mem_map.mp hd
    exact copied_length_lt x
  · intro p hp
    have hc := callsOn_fallback_not_mem p m.batch.cpu_overlaps_ m.batch.cpu_overlap_data_ hp
    refine ⟨hc, ?_⟩
    rw [hheap, hc]
    rfl
  · intro hnd a p d hp hd
    have hc := callsOn_fallback m.batch.cpu_overlaps_ m.batch.cpu_overlap_data_ hnd a p d hp hd
    refine ⟨hc, ?_⟩
    rw [hheap, hc]
    rfl
  · intro hv
    rw [hcalls, h1, h2, zipWith_fallbackCall_map]
    congr 1
    apply List.map_congr_left
    intro x hx
    rw [copied_of_valid x (hv x hx)]
    rfl

/-- On the example dispatcher `alignAll` calls `Align` once, on the fallback overlap 2, with
the eight query bytes and three target bytes copied when it was admitted; the accelerator
overlap 0 is left as it was. -/
theorem alignAll_fallback_inputs_witness :
    Reaches modelAligner exampleOverlapOps exampleMachine
      [⟨2, exampleHeap 2, exampleStore, exampleStore⟩] ∧
    exampleMachine.batch.cpu_overlaps_.length = exampleMachine.batch.cpu_overlap_data_.length ∧
    exampleMachine.batch.cpu_overlaps_ = [2] ∧
    (alignAll modelAligner exampleOverlapOps exampleMachine).calls
      = [.Align 2 ['A', 'C', 'G', 'T', 'A', 'C', 'G', 'T'] 8 ['A', 'C', 'G'] 3] ∧
    (alignAll modelAligner exampleOverlapOps exampleMachine).heap 0 = exampleMachine.heap 0 :=
  ⟨exampleMachine_reaches,
   (alignAll_fallback_inputs modelAligner exampleOverlapOps exampleMachine _
      exampleMachine_reaches).1,
   (alignAll_fallback_inputs modelAligner exampleOverlapOps exampleMachine _
      exampleMachine_reaches).2.1,
   (alignAll_fallback_inputs modelAligner exampleOverlapOps exampleMachine _
      exampleMachine_reaches).2.2.2.1.trans (by decide),
   ((alignAll_fallback_inputs modelAligner exampleOverlapOps exampleMachine _
      exampleMachine_reaches).2.2.2.2.2.2.1 0 (by decide)).2⟩

/-! ## The count check of find_breaking_points -/

/-- C10: if the accelerator keeps the results contract, then in every state reached from
construction by `addOverlap`, `alignAll`, `find_breaking_points` and `reset` (the caller may
change its overlaps in between) the number of accelerator results equals `|overlaps_|`; so
`find_breaking_points` does not throw, and every index `a` of its first loop is in bounds
for `overlaps_`. -/
theorem results_match_overlaps {A Al : Type} (aops : AlignerOps A Al) (oops : OverlapOps)
    (m : Machine A) (hc : ResultContract aops) (hr : Reachable aops oops m) :
    (aops.get_alignments m.batch.aligner_).length = m.batch.overlaps_.length ∧
    ∀ window_length : Nat,
      (find_breaking_points aops oops m window_length).failed = false ∧
      ∀ a : Nat, a < (aops.get_alignments (aops.sync_alignments m.batch.aligner_)).length →
        a < m.batch.overlaps_.length := by
  obtain ⟨g, hg⟩ := hr
  have hinv := reaches_results aops oops hc m g hg
  have hsync : m.batch.overlaps_.length
      = (aops.get_alignments (aops.sync_alignments m.batch.aligner_)).length := by
    rw [hc.synced, hinv]
  refine ⟨hinv, fun wl => ⟨?_, fun a ha => by omega⟩⟩
  rw [find_breaking_points_eq aops oops m wl hsync]
  rfl

/-- The model accelerator keeps the results contract, the aligned example dispatcher is
reachable, and there the accelerator holds two results for the two queued overlaps. -/
theorem results_match_overlaps_witness :
    ResultContract modelAligner ∧
    Reachable modelAligner exampleOverlapOps exampleAligned ∧
    (modelAligner.get_alignments exampleAligned.batch.aligner_).length = 2 ∧
    exampleAligned.batch.overlaps_.length = 2 ∧
    (find_breaking_points modelAligner exampleOverlapOps exampleAligned 500).failed = false :=
  ⟨modelAligner_results,
   ⟨_, Reaches.byAlignAll exampleMachine_reaches⟩,
   (results_match_overlaps modelAligner exampleOverlapOps exampleAligned modelAligner_results
      ⟨_, Reaches.byAlignAll exampleMachine_reaches⟩).1.trans (by decide),
   by decide,
   ((results_match_overlaps modelAligner exampleOverlapOps exampleAligned modelAligner_results
      ⟨_, Reaches.byAlignAll exampleMachine_reaches⟩).2 500).1⟩

end Racon
